import Mathlib

set_option maxRecDepth 8192

/-!
Verification of the session-driven maintenance workflow engine consisting of
two scripts: an interactive-login terminal driver (`DataOnline_Restart.py`)
and a cookie-injection restart/renewal driver (`PanelBytte_Restart.py`).

Python strings are modelled as `List Char` (Unicode code points, matching
Python's `str` semantics for `len`, slicing and iteration).  External
collaborators (the browser driver, the HTTP transport, the secret store)
are modelled as explicit inputs describing the outcome of each call;
fixed-duration waits are pure no-ops.
-/

/-- Code points of a string literal, the working representation of Python strings. -/
def chars (s : String) : List Char := s.data

/-- Whitespace recognised by Python `str.strip` (ASCII subset). -/
def pySpace (c : Char) : Bool :=
  c == ' ' || c == '\t' || c == '\n' || c == '\r' || c == '\x0b' || c == '\x0c'

/-- Python `str.strip()`: remove leading and trailing whitespace. -/
def pyStrip (l : List Char) : List Char :=
  ((l.dropWhile pySpace).reverse.dropWhile pySpace).reverse

/-- Python `str.split(sep)` for a one-character separator. -/
def splitOnChar (sep : Char) : List Char → List (List Char)
  | [] => [[]]
  | c :: rest =>
    if c = sep then [] :: splitOnChar sep rest
    else
      match splitOnChar sep rest with
      | [] => [[c]]
      | h :: t => (c :: h) :: t

/-- Accumulating worker for Python `str.split("----")` (the four-dash account
field delimiter of the interactive-login script). -/
def splitDash4Aux : List Char → List Char → List (List Char)
  | '-' :: '-' :: '-' :: '-' :: rest, acc => acc.reverse :: splitDash4Aux rest []
  | c :: rest, acc => splitDash4Aux rest (c :: acc)
  | [], acc => [acc.reverse]

/-- Python `str.split("----")`. -/
def splitDash4 (l : List Char) : List (List Char) :=
  splitDash4Aux l []

/-- Python `sep.join(parts)`. -/
def joinSep (sep : List Char) : List (List Char) → List Char
  | [] => []
  | [p] => p
  | p :: ps => p ++ sep ++ joinSep sep ps

/-- Boolean test that `pre` is an initial segment of `l`
(Python `str.startswith`). -/
def leadsWith : List Char → List Char → Bool
  | [], _ => true
  | _ :: _, [] => false
  | p :: prest, x :: xrest => p == x && leadsWith prest xrest

/-- Boolean substring containment (Python `in` on strings). -/
def hasSub (needle : List Char) : List Char → Bool
  | [] => leadsWith needle []
  | b :: bs => leadsWith needle (b :: bs) || hasSub needle bs

/-- Concatenation of a list of lists. -/
def flatJoin {α : Type} (ls : List (List α)) : List α :=
  ls.foldr (· ++ ·) []

/-! ### Percent-encoding (`urllib.parse.quote` / `unquote`) -/

/-- Characters `urllib.parse.quote` never encodes (ASCII alphanumerics and
`_.-~`); `quote(value, safe='')` encodes everything else. -/
def pySafe (c : Char) : Bool :=
  c.isAlpha || c.isDigit || c == '_' || c == '.' || c == '-' || c == '~'

/-- Uppercase hexadecimal digit. -/
def hexDigitChar (n : Nat) : Char :=
  (chars "0123456789ABCDEF").getD n 'X'

/-- Value of a hexadecimal digit character, either case. -/
def hexVal (c : Char) : Option Nat :=
  let n := c.toNat
  if 48 ≤ n ∧ n ≤ 57 then some (n - 48)
  else if 65 ≤ n ∧ n ≤ 70 then some (n - 55)
  else if 97 ≤ n ∧ n ≤ 102 then some (n - 87)
  else none

/-- UTF-8 encoding of a Unicode code point. -/
def utf8EncodeCp (n : Nat) : List Nat :=
  if n < 0x80 then [n]
  else if n < 0x800 then [0xC0 + n / 64, 0x80 + n % 64]
  else if n < 0x10000 then [0xE0 + n / 4096, 0x80 + (n / 64) % 64, 0x80 + n % 64]
  else [0xF0 + n / 262144, 0x80 + (n / 4096) % 64, 0x80 + (n / 64) % 64, 0x80 + n % 64]

/-- UTF-8 continuation byte test. -/
def isCont (b : Nat) : Bool :=
  0x80 ≤ b && b < 0xC0

/-- UTF-8 decoding worker: a byte-at-a-time state machine carrying the
number of continuation bytes still expected and the partial code point.
Well-formed sequences (the only ones this development ever decodes — every
decoded sequence here is encoder output) decode exactly; malformed input
yields U+FFFD replacements. -/
def utf8DecAux : List Nat → Nat → Nat → List Nat
  | [], exp, _ => if exp = 0 then [] else [0xFFFD]
  | b :: rest, 0, _ =>
    if b < 0x80 then b :: utf8DecAux rest 0 0
    else if b < 0xC2 then 0xFFFD :: utf8DecAux rest 0 0
    else if b < 0xE0 then utf8DecAux rest 1 (b - 0xC0)
    else if b < 0xF0 then utf8DecAux rest 2 (b - 0xE0)
    else if b < 0xF5 then utf8DecAux rest 3 (b - 0xF0)
    else 0xFFFD :: utf8DecAux rest 0 0
  | b :: rest, exp + 1, acc =>
    if isCont b then
      if exp = 0 then (acc * 64 + (b - 0x80)) :: utf8DecAux rest 0 0
      else utf8DecAux rest exp (acc * 64 + (b - 0x80))
    else 0xFFFD :: utf8DecAux rest 0 0

/-- UTF-8 decoding of a byte sequence into code points. -/
def utf8Decode (bs : List Nat) : List Nat :=
  utf8DecAux bs 0 0

/-- Code point to `Char` (scalar values pass through; anything else maps to
the default character, a case never reached on well-formed input). -/
def cpChar (n : Nat) : Char :=
  Char.ofNat n

/-- Decode UTF-8 bytes to characters. -/
def utf8DecodeChars (bs : List Nat) : List Char :=
  (utf8Decode bs).map cpChar

/-- Percent-encoding of one byte, uppercase (as `quote` emits). -/
def pctOfByte (b : Nat) : List Char :=
  ['%', hexDigitChar (b / 16), hexDigitChar (b % 16)]

/-- `urllib.parse.quote(·, safe='')` on one character. -/
def quoteChar (c : Char) : List Char :=
  if pySafe c then [c] else flatJoin ((utf8EncodeCp c.toNat).map pctOfByte)

/-- `urllib.parse.quote(value, safe='')`. -/
def quoteNoSafe (v : List Char) : List Char :=
  flatJoin (v.map quoteChar)

/-- One step of `unquote`: consume the `%`-separated segments, accumulating
consecutive two-hex-digit byte segments and flushing them through the UTF-8
decoder exactly as CPython's `unquote` does. -/
def unquoteSegs : List (List Char) → List Nat → List Char
  | [], buf => utf8DecodeChars buf
  | seg :: more, buf =>
    match seg with
    | h1 :: h2 :: tail =>
      match hexVal h1, hexVal h2 with
      | some a, some b =>
        if tail = [] then unquoteSegs more (buf ++ [16 * a + b])
        else utf8DecodeChars (buf ++ [16 * a + b]) ++ tail ++ unquoteSegs more []
      | _, _ => utf8DecodeChars buf ++ '%' :: seg ++ unquoteSegs more []
    | _ => utf8DecodeChars buf ++ '%' :: seg ++ unquoteSegs more []

/-- `urllib.parse.unquote` (UTF-8, errors replaced). -/
def unquoteChars (l : List Char) : List Char :=
  match splitOnChar '%' l with
  | [] => []
  | first :: rest => first ++ unquoteSegs rest []

/-! ### `DataOnline_Restart.py`: utilities, credential batch parser -/

/-- `mask_string(s, show)`: keep the first `sh` characters, star the rest;
strings no longer than `sh` become all stars. -/
def mask_string (s : List Char) (sh : Nat) : List Char :=
  if s.length ≤ sh then List.replicate s.length '*'
  else s.take sh ++ List.replicate (s.length - sh) '*'

/-- An account record produced by the credential batch parser. -/
structure DOAccount where
  username : List Char
  password : List Char
  command : List Char
deriving DecidableEq

/-- `parse_accounts`: split the raw credential spec into lines, drop empty
lines, split each line on `----`, keep lines with at least three fields. -/
def parse_accounts (raw : List Char) : List DOAccount :=
  (splitOnChar '\n' (pyStrip raw)).filterMap fun line =>
    let l := pyStrip line
    if l = [] then none
    else
      match splitDash4 l with
      | a :: b :: c :: _ => some ⟨pyStrip a, pyStrip b, pyStrip c⟩
      | _ => none

/-- `MAX_RETRIES` of the interactive-login script. -/
def MAX_RETRIES : Nat := 3

/-- Observable navigation events: a `page.goto` attempt, or an
`asyncio.sleep` of the given number of seconds. -/
inductive NavEv
  | attempt (n : Nat)
  | sleep (secs : Nat)
deriving DecidableEq

/-- The login-page retry loop of `execute_account` (attempts numbered from 1;
`navOk i` tells whether attempt `i` succeeds).  Returns the trace of
attempts/sleeps and either the successful attempt number or the escalated
failure. -/
def goto_retry_aux (navOk : Nat → Bool) : Nat → Nat → List NavEv × Except (List Char) Nat
  | _, 0 => ([], Except.error (chars "fuel"))
  | attempt, fuel + 1 =>
    if navOk attempt then ([NavEv.attempt attempt], Except.ok attempt)
    else if attempt = MAX_RETRIES then
      ([NavEv.attempt attempt], Except.error (chars "无法访问登录页"))
    else
      let r := goto_retry_aux navOk (attempt + 1) fuel
      (NavEv.attempt attempt :: NavEv.sleep 3 :: r.1, r.2)

/-- The complete retry loop (`for attempt in range(1, MAX_RETRIES + 1)`). -/
def do_goto_retry (navOk : Nat → Bool) : List NavEv × Except (List Char) Nat :=
  goto_retry_aux navOk 1 MAX_RETRIES

/-- Navigation plus the post-login check of `execute_account`: if the page is
still on the login surface the account fails without any further navigation
attempt. -/
def do_auth_phase (navOk : Nat → Bool) (stillLogin : Bool) :
    List NavEv × Except (List Char) Unit :=
  let r := do_goto_retry navOk
  match r.2 with
  | Except.error m => (r.1, Except.error m)
  | Except.ok _ =>
    if stillLogin then (r.1, Except.error (chars "登录失败: 仍在登录页面"))
    else (r.1, Except.ok ())

/-- The single un-retried initial `page.goto` of the cookie-injection script
(`PanelBytte_Restart.py` performs exactly one attempt). -/
def pb_initial_goto (navOk : Nat → Bool) : List NavEv × Except Unit Unit :=
  if navOk 1 then ([NavEv.attempt 1], Except.ok ())
  else ([NavEv.attempt 1], Except.error ())

/-- Count of navigation attempts in a trace. -/
def attemptCount (evs : List NavEv) : Nat :=
  evs.countP fun e => match e with | NavEv.attempt _ => true | _ => false

/-- Count of sleeps in a trace. -/
def sleepCount (evs : List NavEv) : Nat :=
  evs.countP fun e => match e with | NavEv.sleep _ => true | _ => false

/-- Outcome of one account's command execution, after authentication, as seen
at the `execute_account` boundary (the message of a failure is the scrubbed
exception text). -/
inductive DOOutcome
  | ok
  | fail (msg : List Char)

/-- The per-account result record of `execute_account`. -/
structure DOResult where
  account : List Char
  success : Bool
  message : List Char
deriving DecidableEq

/-- `execute_account`: every exception is caught inside the function, so it
always returns a result record; the account field is always masked. -/
def execute_account_model (a : DOAccount) (o : DOOutcome) : DOResult :=
  match o with
  | DOOutcome.ok => ⟨mask_string a.username 2, true, chars "命令执行成功"⟩
  | DOOutcome.fail m => ⟨mask_string a.username 2, false, m⟩

/-- Run `execute_account` over a list of accounts (index-addressed outcomes). -/
def run_accounts (outcomes : Nat → DOOutcome) : Nat → List DOAccount → List DOResult
  | _, [] => []
  | i, a :: rest => execute_account_model a (outcomes i) :: run_accounts outcomes (i + 1) rest

/-- A whole run of the interactive-login script, as its `main` drives it. -/
structure DOScenario where
  raw : List Char
  launchRaises : Bool
  outcomes : Nat → DOOutcome

/-- Observable outcome of `main` of `DataOnline_Restart.py`: the process exit
status, whether the final summary (report phase) was emitted, and the
collected per-account results. -/
structure DORunResult where
  exitCode : Nat
  reportDone : Bool
  results : List DOResult
deriving DecidableEq

/-- `main` of `DataOnline_Restart.py`: with zero parsed accounts it logs and
returns (normal interpreter exit, status 0); an uncaught exception while
driving the browser escapes `asyncio.run` (status 1); otherwise every account
is processed and the summary is printed (status 0). -/
def do_run (s : DOScenario) : DORunResult :=
  let accounts := parse_accounts s.raw
  if accounts = [] then ⟨0, false, []⟩
  else if s.launchRaises then ⟨1, false, []⟩
  else ⟨0, true, run_accounts s.outcomes 1 accounts⟩

/-! ### `PanelBytte_Restart.py`: masking, cookie parsing, credential rotation -/

/-- `mask_id`: ids longer than 4 characters keep their first two and last two
characters with the middle starred; empty or short ids are returned as-is. -/
def mask_id (s : List Char) : List Char :=
  if s = [] ∨ s.length ≤ 4 then s
  else s.take 2 ++ List.replicate (s.length - 4) '*' ++ s.drop (s.length - 2)

/-- `mask_cookie_value(value, show_chars)`. -/
def mask_cookie_value (v : List Char) (showChars : Nat) : List Char :=
  if v.length ≤ showChars * 2 then v
  else v.take showChars ++ chars "..." ++ v.drop (v.length - showChars)

/-- Transport attributes attached to an injected cookie. -/
structure CookieCfg where
  httpOnly : Bool
  secure : Bool
  sameSite : List Char
deriving DecidableEq

/-- The `cookie_configs` table of `parse_cookie_string`, in source order
(Python dict insertion order). -/
def cookie_configs : List (List Char × CookieCfg) :=
  [ (chars "remember_web", ⟨true, true, chars "Lax"⟩),
    (chars "pterodactyl_session", ⟨true, true, chars "Lax"⟩),
    (chars "XSRF-TOKEN", ⟨false, true, chars "Lax"⟩),
    (chars "cf_clearance", ⟨true, true, chars "None"⟩),
    (chars "__cf_bm", ⟨true, true, chars "None"⟩),
    (chars "_ga", ⟨false, false, chars "Lax"⟩),
    (chars "_ga_", ⟨false, false, chars "Lax"⟩),
    (chars "cookie-dialog", ⟨false, false, chars "Lax"⟩),
    (chars "filemode", ⟨false, false, chars "Lax"⟩) ]

/-- First matching entry of the config table (`name == prefix or
name.startswith(prefix)`); default config otherwise. -/
def lookupCfg (name : List Char) : List (List Char × CookieCfg) → CookieCfg
  | [] => ⟨false, true, chars "Lax"⟩
  | (pre, cfg) :: rest =>
    if name = pre ∨ leadsWith pre name then cfg else lookupCfg name rest

/-- A Playwright cookie record. -/
structure PWCookie where
  name : List Char
  value : List Char
  domain : List Char
  path : List Char
  secure : Bool
  httpOnly : Bool
  sameSite : List Char
deriving DecidableEq

/-- Find the first `=` in an item, returning the pieces before and after it
(Python `item.index("=")` with slicing); `none` when there is no `=`. -/
def splitAtFirstEq : List Char → Option (List Char × List Char)
  | [] => none
  | c :: rest =>
    if c = '=' then some ([], rest)
    else
      match splitAtFirstEq rest with
      | some (a, b) => some (c :: a, b)
      | none => none

/-- One `;`-separated item of the cookie header, as `parse_cookie_string`
treats it: strip, require an `=`, strip name and value, URL-decode the value,
attach the config of the first matching name prefix. -/
def itemToCookie (domain : List Char) (item : List Char) : Option PWCookie :=
  let it := pyStrip item
  if it = [] then none
  else
    match splitAtFirstEq it with
    | none => none
    | some (n, v) =>
      let name := pyStrip n
      let value := unquoteChars (pyStrip v)
      let cfg := lookupCfg name cookie_configs
      some ⟨name, value, domain, chars "/", cfg.secure, cfg.httpOnly, cfg.sameSite⟩

/-- `parse_cookie_string(cookie_str, domain)`. -/
def parse_cookie_string (cookieStr : List Char) (domain : List Char) : List PWCookie :=
  if cookieStr = [] then []
  else (splitOnChar ';' cookieStr).filterMap (itemToCookie domain)

/-- The `important_names` table of `save_cookies_for_update`. -/
def important_names : List (List Char) :=
  [ chars "remember_web",
    chars "XSRF-TOKEN",
    chars "pterodactyl_session",
    chars "cf_clearance",
    chars "__cf_bm",
    chars "_ga",
    chars "cookie-dialog",
    chars "filemode" ]

/-- Does a cookie name match any important name (`name == prefix or
name.startswith(prefix)`)? -/
def isImportantName (name : List Char) : Bool :=
  important_names.any fun pre => name == pre || leadsWith pre name

/-- The order-preserving filter of `save_cookies_for_update`. -/
def filterImportant (cookies : List PWCookie) : List PWCookie :=
  cookies.filter fun c => isImportantName c.name

/-- `sort_key` of `save_cookies_for_update`. -/
def sort_key (c : PWCookie) : Nat :=
  if leadsWith (chars "remember_web") c.name then 0
  else if c.name = chars "pterodactyl_session" then 1
  else if c.name = chars "XSRF-TOKEN" then 2
  else if leadsWith (chars "cf_") c.name then 3
  else 10

/-- Stable insertion of a cookie before the first entry with a key not less
than its own (the placement Python's stable `list.sort` gives an element
standing before its equals). -/
def insertByKey (c : PWCookie) : List PWCookie → List PWCookie
  | [] => [c]
  | d :: ds => if sort_key d < sort_key c then d :: insertByKey c ds else c :: d :: ds

/-- Python's stable `filtered.sort(key=sort_key)`. -/
def sortCookies : List PWCookie → List PWCookie
  | [] => []
  | c :: cs => insertByKey c (sortCookies cs)

/-- `name=value` pair with the value percent-encoded (`quote(value, safe='')`). -/
def cookiePart (c : PWCookie) : List Char :=
  c.name ++ '=' :: quoteNoSafe c.value

/-- `save_cookies_for_update`: filter to important cookies, stable-sort by
priority, percent-encode values, join with `"; "`; the empty string signals
"nothing to rotate". -/
def save_cookies_for_update (cookies : List PWCookie) : List Char :=
  let filtered := filterImportant cookies
  if filtered = [] then []
  else joinSep (chars "; ") ((sortCookies filtered).map cookiePart)

/-! ### State inspector (`check_need_restart`) -/

/-- Outcome of probing one power control: the locator interaction raises, the
control is absent (`count() == 0`), or it is present with the given
`disabled`-attribute state. -/
inductive BtnProbe
  | raises
  | absent
  | present (disabled : Bool)
deriving DecidableEq

/-- The power page: the `#power-start` and `#power-stop` probes. -/
structure PowerPage where
  start : BtnProbe
  stop : BtnProbe

/-- `check_need_restart`: start enabled → restart; else stop disabled →
restart; any exception (or neither signal) → no action. -/
def check_need_restart (p : PowerPage) : Bool :=
  match p.start with
  | BtnProbe.raises => false
  | BtnProbe.present false => true
  | _ =>
    match p.stop with
    | BtnProbe.raises => false
    | BtnProbe.present true => true
    | _ => false

/-! ### Renewal protocol (`check_and_renew`) -/

/-- Outcome of probing a read-only element: raises with a message, absent, or
present with inner text. -/
inductive ElemProbe
  | raises (msg : List Char)
  | absent
  | elem (text : List Char)

/-- Outcome of probing one confirmation selector inside the per-selector
`try`: the probe raises, the control is absent, present but not visible,
present and visible but its click raises, or present, visible and clicked. -/
inductive ConfirmProbe
  | raises
  | absent
  | hidden
  | clickRaises
  | clickable
deriving DecidableEq

/-- The settings page as `check_and_renew` interacts with it. -/
structure SettingsPage where
  read : String → ElemProbe
  confirm : String → ConfirmProbe
  renewClick : Option (List Char)

/-- The `balance_selectors` candidate list. -/
def balance_selectors : List String :=
  [ "code.RenewServerBox___StyledCode-sc-pwczq4-3",
    ".RenewServerBox___StyledDiv2-sc-pwczq4-2 code",
    "code.TqUPO" ]

/-- The `expiration_selectors` candidate list. -/
def expiration_selectors : List String :=
  [ "code.RenewServerBox___StyledCode2-sc-pwczq4-5",
    ".RenewServerBox___StyledDiv3-sc-pwczq4-4 code",
    "code.kggZVS" ]

/-- The `renew_selectors` candidate list. -/
def renew_selectors : List String :=
  [ "button:has-text(\"Renew Server\")",
    ".RenewServerBox___StyledDiv4-sc-pwczq4-8 button",
    "button.bvYLfo" ]

/-- The `confirm_selectors` candidate list. -/
def confirm_selectors : List String :=
  [ "button:has-text(\"Yes, Renew Server\")",
    "button:has-text(\"Yes, renew server\")",
    ".ConfirmationModal___StyledButton2-sc-1sxt2cr-4",
    "button.iNKfxp" ]

/-- A first-match selector scan (`for selector in ...: if count() > 0: ...
break`): the first present element wins, a raising probe escapes to the
enclosing handler. -/
def find_first_text (p : SettingsPage) : List String → Except (List Char) (Option (List Char))
  | [] => Except.ok none
  | s :: rest =>
    match p.read s with
    | ElemProbe.raises m => Except.error m
    | ElemProbe.absent => find_first_text p rest
    | ElemProbe.elem t => Except.ok (some t)

/-- The confirmation-selector loop: each selector is probed inside its own
`try`, every non-clickable outcome just moves to the next candidate, and the
loop reports whether some candidate was present, visible and clicked. -/
def find_confirm (p : SettingsPage) : List String → Bool
  | [] => false
  | s :: rest =>
    match p.confirm s with
    | ConfirmProbe.clickable => true
    | _ => find_confirm p rest

/-- The trailing price segment of the renewal-button label:
`btn_text.split("-")[-1].strip()` when a `-` is present, else empty. -/
def trailing_price (btnText : List Char) : List Char :=
  if btnText.contains '-' then pyStrip ((splitOnChar '-' btnText).getLastD [])
  else []

/-- The leftmost match of `re.search(r'(\d+\.?\d*)', s)` starting at a given
digit: greedy digits, an optional dot, then greedy digits. -/
def numMatchFrom (l : List Char) : List Char :=
  let ds := l.takeWhile Char.isDigit
  match l.dropWhile Char.isDigit with
  | '.' :: r2 => ds ++ '.' :: r2.takeWhile Char.isDigit
  | _ => ds

/-- `re.search(r'(\d+\.?\d*)', s)`: the first maximal numeric match, if any. -/
def reSearchNum : List Char → Option (List Char)
  | [] => none
  | c :: rest => if c.isDigit then some (numMatchFrom (c :: rest)) else reSearchNum rest

/-- `float(m) == 0` for a regex match `m` (digits with an optional dot):
every digit of the match is `0`. -/
def matchedZero (m : List Char) : Bool :=
  m.all fun c => c == '0' || c == '.'

/-- The free-renewal decision of `check_and_renew`: the label contains the
literal `0.00`, or else the numeric head of the non-empty trailing price
segment parses to zero; everything else (including parse failure) is not
free. -/
def is_free_label (btnText : List Char) : Bool :=
  if hasSub (chars "0.00") btnText then true
  else
    let price := trailing_price btnText
    if price ≠ [] then
      match reSearchNum price with
      | some m => matchedZero m
      | none => false
    else false

/-- The result record of `check_and_renew`. -/
structure RenewResult where
  need_renew : Bool
  renewed : Bool
  expiration : List Char
  balance : List Char
  price : List Char
  message : List Char
deriving DecidableEq

/-- The all-defaults initial result dict. -/
def renewInit : RenewResult :=
  ⟨false, false, [], [], [], []⟩

/-- Clicks performed by `check_and_renew`. -/
inductive REvent
  | clickRenew
deriving DecidableEq

/-- The `except` clause of `check_and_renew`: keep the fields accumulated so
far and overwrite the message with the truncated exception text. -/
def exnResult (r : RenewResult) (m : List Char) : RenewResult :=
  { r with message := chars "检查失败: " ++ m.take 50 }

/-- `check_and_renew`, with the page interactions supplied as probes; the
second component lists the state-changing clicks performed on the renewal
control. -/
def check_and_renew (p : SettingsPage) : RenewResult × List REvent :=
  match find_first_text p balance_selectors with
  | Except.error m => (exnResult renewInit m, [])
  | Except.ok ob =>
    let r1 := match ob with
      | some t => { renewInit with balance := pyStrip t }
      | none => renewInit
    match find_first_text p expiration_selectors with
    | Except.error m => (exnResult r1 m, [])
    | Except.ok oe =>
      let r2 := match oe with
        | some t => { r1 with expiration := pyStrip t }
        | none => r1
      match find_first_text p renew_selectors with
      | Except.error m => (exnResult r2 m, [])
      | Except.ok none => ({ r2 with message := chars "未找到续约按钮" }, [])
      | Except.ok (some t0) =>
        let btnText := pyStrip t0
        if btnText = [] then ({ r2 with message := chars "未找到续约按钮" }, [])
        else
          let r3 := { r2 with price := trailing_price btnText }
          if is_free_label btnText then
            let r4 := { r3 with need_renew := true }
            match p.renewClick with
            | some m => (exnResult r4 m, [REvent.clickRenew])
            | none =>
              if find_confirm p confirm_selectors then
                ({ r4 with renewed := true, message := chars "免费续约成功" },
                  [REvent.clickRenew])
              else
                ({ r4 with message := chars "未找到确认按钮" }, [REvent.clickRenew])
          else
            ({ r3 with message := chars "需付费续约: " ++ r3.price }, [])

/-- The first exception the renewal protocol raises into its outer handler,
if any (the confirmation loop swallows its own). -/
def protocol_exception (p : SettingsPage) : Option (List Char) :=
  match find_first_text p balance_selectors with
  | Except.error m => some m
  | Except.ok _ =>
    match find_first_text p expiration_selectors with
    | Except.error m => some m
    | Except.ok _ =>
      match find_first_text p renew_selectors with
      | Except.error m => some m
      | Except.ok none => none
      | Except.ok (some t0) =>
        if pyStrip t0 ≠ [] ∧ is_free_label (pyStrip t0) = true then p.renewClick
        else none

/-! ### Notification dispatcher (`notify_telegram` / `send_text_only`) -/

/-- Outcome of one `requests.post` call: an HTTP status, or a raised
transport exception. -/
inductive PostOutcome
  | status (code : Nat)
  | raises (msg : List Char)
deriving DecidableEq

/-- The environment `notify_telegram` reads: configuration, the message
pieces, and the evidence file situation. -/
structure NotifyEnv where
  botToken : List Char
  chatId : List Char
  ok : Bool
  stage : List Char
  msg : List Char
  timeNow : List Char
  screenshotFile : Option (List Char)
  fileExists : Bool
  openOk : Bool

/-- Transport behaviour for the photo and text endpoints. -/
structure NotifyTransport where
  photoPost : PostOutcome
  textPost : PostOutcome

/-- Observable actions of the dispatcher. -/
inductive TgEvent
  | photoSend (caption : List Char)
  | textSend (text : List Char)
  | warn (what : List Char)
  | info (what : List Char)
deriving DecidableEq

/-- The summary composition of `notify_telegram` (status glyph, stage,
optional detail, timestamp, joined by newlines). -/
def compose_caption (ok : Bool) (stage msg timeNow : List Char) : List Char :=
  let status := if ok then chars "✅ 成功" else chars "❌ 失败"
  let lines1 := [chars "📋 Bytte 自动重启&续约", [], chars "状态: " ++ status,
    chars "阶段: " ++ stage]
  let lines2 := if msg ≠ [] then lines1 ++ [[], msg] else lines1
  joinSep (chars "\n") (lines2 ++ [[], chars "⏰ " ++ timeNow])

/-- `send_text_only`: posts the text; any failure is logged inside its own
handler and never escapes. -/
def send_text_only (tr : NotifyTransport) (text : List Char) : List TgEvent :=
  match tr.textPost with
  | PostOutcome.status code =>
    if code = 200 then [TgEvent.textSend text, TgEvent.info (chars "Telegram 文本通知已发送")]
    else [TgEvent.textSend text, TgEvent.warn (chars "Telegram 消息发送失败")]
  | PostOutcome.raises m => [TgEvent.textSend text, TgEvent.warn (chars "发送文本失败: " ++ m)]

/-- `notify_telegram`: skip on missing configuration; with an existing
evidence file, post the photo and fall back to a text send only on a non-200
status; the outer handler logs and swallows any raised exception. -/
def notify_telegram (env : NotifyEnv) (tr : NotifyTransport) : List TgEvent :=
  if env.botToken = [] ∨ env.chatId = [] then
    [TgEvent.warn (chars "Telegram 配置不完整，跳过通知")]
  else
    let caption := compose_caption env.ok env.stage env.msg env.timeNow
    match env.screenshotFile with
    | some _ =>
      if env.fileExists then
        if env.openOk then
          match tr.photoPost with
          | PostOutcome.status code =>
            if code = 200 then
              [TgEvent.photoSend caption, TgEvent.info (chars "Telegram 通知已发送（带截图）")]
            else
              TgEvent.photoSend caption :: TgEvent.warn (chars "Telegram 图片发送失败")
                :: send_text_only tr caption
          | PostOutcome.raises m =>
            [TgEvent.photoSend caption, TgEvent.warn (chars "Telegram 通知失败: " ++ m)]
        else [TgEvent.warn (chars "Telegram 通知失败: 打开截图文件失败")]
      else send_text_only tr caption
    | none => send_text_only tr caption

/-! ### Orchestrator (`main` of `PanelBytte_Restart.py`) -/

/-- A discovered server (identifier, display name, detail address). -/
structure ServerRec where
  id : List Char
  name : List Char
  url : List Char
deriving DecidableEq

/-- The per-server discovery log line of `handle_response`. -/
def discovery_log_line (name id : List Char) : List Char :=
  chars "📦 发现服务器: " ++ name ++ chars " (ID: " ++ mask_id id ++ chars ")"

/-- The inspect/act outcome of one server's iteration: completed with the
given step results, a Playwright timeout, or another exception. -/
structure ServerStep where
  restartNeeded : Bool
  restartDone : Bool
  renewNeeded : Bool
  renewDone : Bool
  renewExpiration : List Char
  renewMsg : List Char
deriving DecidableEq

/-- Per-server iteration outcome as seen at the per-server `try` boundary. -/
inductive ServerOutcome
  | ok (st : ServerStep)
  | timeout
  | err (msg : List Char)
deriving DecidableEq

/-- The result line the orchestrator appends for one server (the summary
construction of lines 768–798, including both `except` clauses). -/
def server_status_line (name : List Char) (o : ServerOutcome) : List Char :=
  match o with
  | ServerOutcome.timeout => chars "❌ " ++ name ++ chars ": 超时"
  | ServerOutcome.err m => chars "❌ " ++ name ++ chars ": " ++ m.take 30
  | ServerOutcome.ok st =>
    let p1 := if st.restartNeeded then
        (if st.restartDone then [chars "🔄重启成功"] else [chars "❌重启失败"])
      else [chars "🟢运行中"]
    let p2 := if st.renewNeeded then
        (if st.renewDone then [chars "✅续约成功"] else [chars "❌续约失败"])
      else if st.renewMsg ≠ [] then [chars "ℹ️" ++ st.renewMsg.take 20] else []
    let p3 := if st.renewExpiration ≠ [] then [chars "📅" ++ st.renewExpiration] else []
    chars "🖥️ " ++ name ++ chars ": " ++ joinSep (chars " | ") (p1 ++ p2 ++ p3)

/-- The server loop: one result line per server, failures included. -/
def process_servers (servers : List (ServerRec × ServerOutcome)) : List (List Char) :=
  servers.map fun sv => server_status_line sv.1.name sv.2

/-- A whole run of the cookie-injection script, with every external outcome
fixed up front. -/
structure PBScenario where
  cookiesEnv : Option (List Char)
  gotoRaises : Bool
  redirectedToLogin : Bool
  servers : List (ServerRec × ServerOutcome)
  lateRaises : Bool
  finalCookies : List PWCookie

/-- Observable outcome of `main` of `PanelBytte_Restart.py`. -/
structure PBResult where
  exitCode : Nat
  reportDone : Bool
  rotationAttempted : Bool
  secretUpdateCalled : Bool
  resultLines : List (List Char)
deriving DecidableEq

/-- `main` of `PanelBytte_Restart.py`: missing/empty credential input, a
zero-cookie parse, a failed initial navigation, a login redirect and an empty
server inventory are fatal (`sys.exit(1)`); per-server failures are isolated;
after the loop the credential rotation and the final report run, then
`sys.exit(0)`; any exception escaping those phases exits 1. -/
def pb_run (s : PBScenario) : PBResult :=
  match s.cookiesEnv with
  | none => ⟨1, false, false, false, []⟩
  | some env =>
    if env = [] then ⟨1, false, false, false, []⟩
    else
      let cookies := parse_cookie_string env (chars "panel.bytte.cloud")
      if cookies = [] then ⟨1, false, false, false, []⟩
      else if s.gotoRaises then ⟨1, false, false, false, []⟩
      else if s.redirectedToLogin then ⟨1, false, false, false, []⟩
      else if s.servers = [] then ⟨1, false, false, false, []⟩
      else
        let results := process_servers s.servers
        if s.lateRaises then ⟨1, false, false, false, results⟩
        else
          let ck := save_cookies_for_update s.finalCookies
          ⟨0, true, true, ck ≠ [], results⟩

/-! ### Derived definitions used in statements and proofs -/

/-- The claim's priority-order description of the rotation output: the
`remember_web*` bucket, then `pterodactyl_session`, then `XSRF-TOKEN`, then
the `cf_*` bucket, then everything else, each bucket in input order. -/
def priorityBuckets (l : List PWCookie) : List PWCookie :=
  l.filter (fun c => sort_key c == 0) ++ l.filter (fun c => sort_key c == 1) ++
    l.filter (fun c => sort_key c == 2) ++ l.filter (fun c => sort_key c == 3) ++
    l.filter (fun c => sort_key c == 10)

/-- UTF-8 bytes of a character sequence. -/
def encBytes (cs : List Char) : List Nat :=
  flatJoin (cs.map fun c => utf8EncodeCp c.toNat)

/-- The two hex digits of one byte, as one `unquote` segment piece. -/
def hexPair (b : Nat) : List Char :=
  [hexDigitChar (b / 16), hexDigitChar (b % 16)]

/-- How a run of percent-encoded bytes followed by remaining segments appears
after splitting on `%`: every byte contributes a two-hex-digit segment, the
last one merging with the first remaining segment. -/
def byteSegs : List Nat → List (List Char) → List (List Char)
  | [], s => s
  | [b], s =>
    match s with
    | h :: t => (hexPair b ++ h) :: t
    | [] => [hexPair b]
  | b :: bs, s => hexPair b :: byteSegs bs s

/-- Characters a `quote(·, safe='')` output can contain: safe characters,
`%`, and hexadecimal digits. -/
def encSafeChar (c : Char) : Bool :=
  pySafe c || c == '%' || (hexVal c).isSome

/-- Is an event a text send? -/
def isTextSendEv : TgEvent → Bool
  | TgEvent.textSend _ => true
  | _ => false

/-! ### Concrete inputs for witnesses and counterexamples -/

/-- Navigation succeeding only on the second attempt. -/
def navOkSecond : Nat → Bool := fun i => i == 2

/-- A settings page with a free renewal label and a clickable first
confirmation control. -/
def pageW : SettingsPage where
  read := fun s =>
    if s = "button:has-text(\"Renew Server\")" then
      ElemProbe.elem (chars "Renew Server - 0.00 USD")
    else ElemProbe.absent
  confirm := fun _ => ConfirmProbe.clickable
  renewClick := none

/-- A settings page whose balance probe raises. -/
def pageRaise : SettingsPage where
  read := fun _ => ElemProbe.raises (chars "browser gone")
  confirm := fun _ => ConfirmProbe.absent
  renewClick := none

/-- A fully configured notification environment with an existing evidence
file. -/
def envC9 : NotifyEnv where
  botToken := chars "tok"
  chatId := chars "chat"
  ok := false
  stage := chars "脚本异常"
  msg := chars "detail"
  timeNow := chars "2026-10-12 00:00:00"
  screenshotFile := some (chars "output/screenshots/99-error.png")
  fileExists := true
  openOk := true

/-- A transport whose photo endpoint raises. -/
def trRaise : NotifyTransport where
  photoPost := PostOutcome.raises (chars "timeout")
  textPost := PostOutcome.status 200

/-- A transport whose photo endpoint answers a non-200 status. -/
def trStatus : NotifyTransport where
  photoPost := PostOutcome.status 500
  textPost := PostOutcome.status 200

/-- The empty credential batch scenario of the interactive-login script. -/
def doEmpty : DOScenario :=
  ⟨[], false, fun _ => DOOutcome.ok⟩

/-- A one-account scenario whose account fails during execution. -/
def doGood : DOScenario :=
  ⟨chars "u1----p1----c1", false, fun _ => DOOutcome.fail (chars "err")⟩

/-- A cookie-injection scenario with no credential input at all. -/
def pbNoEnv : PBScenario :=
  ⟨none, false, false, [], false, []⟩

/-- A discovered server. -/
def srvA : ServerRec :=
  ⟨chars "abcdefgh", chars "srv-a", chars "https://panel.bytte.cloud/server/abcdefgh"⟩

/-- A second discovered server. -/
def srvB : ServerRec :=
  ⟨chars "ijklmnop", chars "srv-b", chars "https://panel.bytte.cloud/server/ijklmnop"⟩

/-- A successful setup whose first server raises during its iteration while
the second completes. -/
def pbGood : PBScenario where
  cookiesEnv := some (chars "remember_web_a=x")
  gotoRaises := false
  redirectedToLogin := false
  servers := [(srvA, ServerOutcome.err (chars "boom")),
    (srvB, ServerOutcome.ok ⟨true, true, false, false, [], chars "需付费续约: 4.99 USD"⟩)]
  lateRaises := false
  finalCookies := [⟨chars "remember_web_a", chars "y", chars "panel.bytte.cloud", chars "/",
    true, true, chars "Lax"⟩]

/-- A successful setup whose final session holds no important cookie. -/
def pbNoImportant : PBScenario where
  cookiesEnv := some (chars "remember_web_a=x")
  gotoRaises := false
  redirectedToLogin := false
  servers := [(srvA, ServerOutcome.ok ⟨false, false, false, false, [], []⟩)]
  lateRaises := false
  finalCookies := [⟨chars "unimportant", chars "y", chars "panel.bytte.cloud", chars "/",
    false, true, chars "Lax"⟩]

/-- The credential-rotation example token set of the specification. -/
def cookiesC6 : List PWCookie :=
  [ ⟨chars "remember_web_x", chars "a", chars "panel.bytte.cloud", chars "/", true, true, chars "Lax"⟩,
    ⟨chars "_ga", chars "b", chars "panel.bytte.cloud", chars "/", false, false, chars "Lax"⟩,
    ⟨chars "unknown_token", chars "c", chars "panel.bytte.cloud", chars "/", false, true, chars "Lax"⟩ ]

/-- An important cookie whose name carries a trailing space. -/
def ckTrail : PWCookie :=
  ⟨chars "remember_web ", chars "a", chars "panel.bytte.cloud", chars "/", true, true, chars "Lax"⟩

/-- A clean token set exercising encoding in the round-trip witness. -/
def cookiesC10 : List PWCookie :=
  [ ⟨chars "remember_web_x", chars "a b%c=d;e", chars "panel.bytte.cloud", chars "/", true, true, chars "Lax"⟩,
    ⟨chars "_ga", chars "汉字", chars "panel.bytte.cloud", chars "/", false, false, chars "Lax"⟩ ]

/-! ## Helper lemmas -/

theorem leadsWith_length_le : ∀ {a b : List Char}, leadsWith a b = true → a.length ≤ b.length
  | [], _, _ => Nat.zero_le _
  | _ :: _, [], h => by simp [leadsWith] at h
  | x :: xs, y :: ys, h => by
    simp only [leadsWith, Bool.and_eq_true] at h
    simpa using leadsWith_length_le h.2

theorem leadsWith_eq_of_length : ∀ {a b : List Char}, leadsWith a b = true →
    a.length = b.length → a = b
  | [], [], _, _ => rfl
  | [], _ :: _, _, hl => by simp at hl
  | _ :: _, [], h, _ => by simp [leadsWith] at h
  | x :: xs, y :: ys, h, hl => by
    simp only [leadsWith, Bool.and_eq_true, beq_iff_eq] at h
    simp only [List.length_cons, Nat.add_right_cancel_iff] at hl
    rw [h.1, leadsWith_eq_of_length h.2 hl]

theorem hasSub_length_le : ∀ {a l : List Char}, hasSub a l = true → a.length ≤ l.length
  | a, [], h => by
    cases a with
    | nil => simp
    | cons x xs => simp [hasSub, leadsWith] at h
  | a, b :: bs, h => by
    simp only [hasSub, Bool.or_eq_true] at h
    rcases h with h | h
    · exact leadsWith_length_le h
    · exact Nat.le_trans (hasSub_length_le h) (by simp)

theorem hasSub_eq_of_length {a l : List Char} (h : hasSub a l = true)
    (hl : a.length = l.length) : a = l := by
  cases l with
  | nil =>
    cases a with
    | nil => rfl
    | cons x xs => simp at hl
  | cons b bs =>
    simp only [hasSub, Bool.or_eq_true] at h
    rcases h with h | h
    · exact leadsWith_eq_of_length h hl
    · have := hasSub_length_le h
      simp only [List.length_cons] at hl
      omega

/-! ## C7: restart decision -/

/-- C7: the restart decision is a deterministic function of the two
control-disabled flags — in an exception-free inspection, restart is needed
iff the start control exists and is not disabled or the stop control exists
and is disabled; an exception at the start probe, or at the stop probe when
the start signal did not already decide, yields the fail-closed `false`. -/
theorem check_need_restart_spec :
    (∀ p : PowerPage, p.start ≠ BtnProbe.raises → p.stop ≠ BtnProbe.raises →
      (check_need_restart p = true ↔
        (p.start = BtnProbe.present false ∨ p.stop = BtnProbe.present true))) ∧
    (∀ p : PowerPage, p.start = BtnProbe.raises → check_need_restart p = false) ∧
    (∀ p : PowerPage, p.start ≠ BtnProbe.present false → p.stop = BtnProbe.raises →
      check_need_restart p = false) := by
  refine ⟨?_, ?_, ?_⟩
  · rintro ⟨s, t⟩ hs ht
    simp only at hs ht ⊢
    cases s with
    | raises => exact absurd rfl hs
    | absent =>
      cases t with
      | raises => exact absurd rfl ht
      | absent => simp [check_need_restart]
      | present c => cases c <;> simp [check_need_restart]
    | present b =>
      cases b with
      | false => simp [check_need_restart]
      | true =>
        cases t with
        | raises => exact absurd rfl ht
        | absent => simp [check_need_restart]
        | present c => cases c <;> simp [check_need_restart]
  · rintro ⟨s, t⟩ hs
    simp only at hs
    subst hs
    rfl
  · rintro ⟨s, t⟩ hs ht
    simp only at hs ht
    subst ht
    cases s with
    | raises => rfl
    | absent => rfl
    | present b => cases b with
      | false => exact absurd rfl hs
      | true => rfl

/-- C7 witness: a page with an enabled start control needs a restart. -/
theorem check_need_restart_spec_witness :
    check_need_restart ⟨BtnProbe.present false, BtnProbe.present true⟩ = true := by
  have h := check_need_restart_spec.1 ⟨BtnProbe.present false, BtnProbe.present true⟩
    (by decide) (by decide)
  exact h.mpr (Or.inl rfl)

/-! ## C8: identifier masking -/

/-- C8 counterexample: an identifier of length 4 passes through `mask_id`
unchanged (no character is replaced by a placeholder) and therefore appears
verbatim in the discovery log line, contrary to the claim that the masking
function replaces all but the leading and trailing characters. -/
theorem mask_id_short_leak :
    mask_id (chars "abcd") = chars "abcd" ∧
    (chars "abcd").length = 4 ∧
    '*' ∉ mask_id (chars "abcd") ∧
    hasSub (chars "abcd") (discovery_log_line (chars "srv") (chars "abcd")) = true := by
  refine ⟨rfl, rfl, by decide, by decide⟩

/-- C8 (amended): identifiers longer than 4 characters are masked with the
first two and last two characters preserved and every middle position
replaced by `*` — so such an identifier with any non-`*` middle character
never occurs verbatim in its masked form — while identifiers of length at
most 4 are returned unchanged by `mask_id` and so appear unmasked. -/
theorem mask_id_spec :
    (∀ id : List Char, 4 < id.length →
      mask_id id = id.take 2 ++ List.replicate (id.length - 4) '*' ++
        id.drop (id.length - 2) ∧
      (mask_id id).length = id.length ∧
      (∀ j, 2 ≤ j → j + 2 < id.length → (mask_id id).getD j 'x' = '*')) ∧
    (∀ id : List Char, id.length ≤ 4 → mask_id id = id) ∧
    (∀ id : List Char, 4 < id.length →
      (∃ j, 2 ≤ j ∧ j + 2 < id.length ∧ id.getD j 'x' ≠ '*') →
      hasSub id (mask_id id) = false) := by
  have hshape : ∀ id : List Char, 4 < id.length →
      mask_id id = id.take 2 ++ List.replicate (id.length - 4) '*' ++
        id.drop (id.length - 2) := by
    intro id h
    rw [mask_id, if_neg]
    rintro (h1 | h1)
    · subst h1; simp at h
    · omega
  have hlen : ∀ id : List Char, 4 < id.length → (mask_id id).length = id.length := by
    intro id h
    rw [hshape id h]
    simp only [List.length_append, List.length_take, List.length_replicate,
      List.length_drop]
    omega
  have hmid : ∀ id : List Char, 4 < id.length →
      ∀ j, 2 ≤ j → j + 2 < id.length → (mask_id id).getD j 'x' = '*' := by
    intro id h j hj hj2
    have ht : (id.take 2).length = 2 := by
      simp only [List.length_take]
      omega
    rw [hshape id h]
    rw [List.getD_eq_getElem?_getD]
    rw [List.getElem?_append_left
      (by simp only [List.length_append, List.length_replicate, ht]; omega)]
    rw [List.getElem?_append_right (by omega)]
    rw [ht]
    rw [List.getElem?_eq_getElem (by simp only [List.length_replicate]; omega)]
    simp
  refine ⟨fun id h => ⟨hshape id h, hlen id h, hmid id h⟩, ?_, ?_⟩
  · intro id h
    rw [mask_id, if_pos (Or.inr h)]
  · rintro id h ⟨j, hj1, hj2, hja⟩
    cases hsub : hasSub id (mask_id id) with
    | false => rfl
    | true =>
      exfalso
      have heq : id = mask_id id := hasSub_eq_of_length hsub (hlen id h).symm
      exact hja (heq ▸ hmid id h j hj1 hj2)

/-- C8 witness: a six-character identifier is masked to its first two and
last two characters around two placeholders. -/
theorem mask_id_spec_witness :
    mask_id (chars "abcdef") =
      (chars "abcdef").take 2 ++ List.replicate ((chars "abcdef").length - 4) '*' ++
        (chars "abcdef").drop ((chars "abcdef").length - 2) :=
  (mask_id_spec.1 (chars "abcdef") (by decide)).1

/-! ## C3: initial-navigation retry -/

theorem goto_retry_trace : ∀ navOk : Nat → Bool, (do_goto_retry navOk).1 =
    if navOk 1 then [NavEv.attempt 1]
    else if navOk 2 then [NavEv.attempt 1, NavEv.sleep 3, NavEv.attempt 2]
    else [NavEv.attempt 1, NavEv.sleep 3, NavEv.attempt 2, NavEv.sleep 3,
      NavEv.attempt 3] := by
  intro navOk
  cases h1 : navOk 1 <;> cases h2 : navOk 2 <;> cases h3 : navOk 3 <;>
    simp [do_goto_retry, goto_retry_aux, MAX_RETRIES, h1, h2, h3]

theorem goto_retry_result : ∀ navOk : Nat → Bool, (do_goto_retry navOk).2 =
    if navOk 1 then Except.ok 1
    else if navOk 2 then Except.ok 2
    else if navOk 3 then Except.ok 3
    else Except.error (chars "无法访问登录页") := by
  intro navOk
  cases h1 : navOk 1 <;> cases h2 : navOk 2 <;> cases h3 : navOk 3 <;>
    simp [do_goto_retry, goto_retry_aux, MAX_RETRIES, h1, h2, h3]

/-- C3 counterexample: the cookie-injection script performs a single initial
navigation attempt — when the first attempt fails it raises even though a
second attempt would have succeeded, while the interactive-login script's
retry loop succeeds on attempt 2 of the same behaviour. -/
theorem pb_no_retry_counterexample :
    (pb_initial_goto navOkSecond).2 = Except.error () ∧
    navOkSecond 2 = true ∧
    (do_goto_retry navOkSecond).2 = Except.ok 2 := by
  refine ⟨rfl, rfl, rfl⟩

/-- C3 (amended): the interactive-login script retries the initial
navigation up to 3 attempts, succeeding exactly when one of the first three
attempts succeeds, never exceeding 3 attempts, sleeping 3 seconds exactly
once between consecutive attempts, and the post-navigation authentication
check adds no navigation attempt (rejections are not retried); the
cookie-injection script performs exactly one navigation attempt with no
retry. -/
theorem nav_retry_spec :
    (∀ navOk : Nat → Bool, (do_goto_retry navOk).2.isOk = true ↔
      (∃ i, 1 ≤ i ∧ i ≤ 3 ∧ navOk i = true)) ∧
    (∀ navOk : Nat → Bool, attemptCount (do_goto_retry navOk).1 ≤ 3) ∧
    (∀ navOk : Nat → Bool,
      sleepCount (do_goto_retry navOk).1 = attemptCount (do_goto_retry navOk).1 - 1) ∧
    (∀ navOk : Nat → Bool, ∀ e ∈ (do_goto_retry navOk).1, ∀ n, e = NavEv.sleep n → n = 3) ∧
    (∀ navOk : Nat → Bool, ∀ stillLogin,
      (do_auth_phase navOk stillLogin).1 = (do_goto_retry navOk).1) ∧
    (∀ navOk : Nat → Bool, (pb_initial_goto navOk).1 = [NavEv.attempt 1]) := by
  refine ⟨?_, ?_, ?_, ?_, ?_, ?_⟩
  · intro navOk
    rw [goto_retry_result navOk]
    cases h1 : navOk 1 <;> cases h2 : navOk 2 <;> cases h3 : navOk 3 <;>
      simp [Except.isOk, Except.toBool] <;>
      first
      | exact ⟨1, by omega, by omega, h1⟩
      | exact ⟨2, by omega, by omega, h2⟩
      | exact ⟨3, by omega, by omega, h3⟩
      | (intro i hi1 hi3
         have hc : i = 1 ∨ i = 2 ∨ i = 3 := by omega
         rcases hc with rfl | rfl | rfl <;> simp_all)
  · intro navOk
    rw [goto_retry_trace navOk]
    cases h1 : navOk 1 <;> cases h2 : navOk 2 <;>
      simp [attemptCount, List.countP_cons]
  · intro navOk
    rw [goto_retry_trace navOk]
    cases h1 : navOk 1 <;> cases h2 : navOk 2 <;>
      simp [attemptCount, sleepCount, List.countP_cons]
  · intro navOk
    rw [goto_retry_trace navOk]
    cases h1 : navOk 1 <;> cases h2 : navOk 2 <;> simp
  · intro navOk stillLogin
    cases hr : (do_goto_retry navOk).2 <;> cases stillLogin <;>
      simp [do_auth_phase, hr]
  · intro navOk
    cases h1 : navOk 1 <;> simp [pb_initial_goto, h1]

/-- C3 witness: with success only on the second attempt the retry loop
reports success. -/
theorem nav_retry_spec_witness :
    (do_goto_retry navOkSecond).2.isOk = true :=
  (nav_retry_spec.1 navOkSecond).mpr ⟨2, by omega, by omega, rfl⟩

/-! ## C5: renewal eligibility -/

/-- C5: a renewal label is judged free iff it contains the literal `0.00`
token or the numeric match inside its trailing after-`-` segment is exactly
zero; no numeric match (including the no-separator and empty-segment cases)
defaults to not-free; and `check_and_renew` clicks the renewal control only
when the label it found was judged free. -/
theorem renew_eligibility_spec :
    (∀ t : List Char, is_free_label t = true ↔
      (hasSub (chars "0.00") t = true ∨
        ∃ m, reSearchNum (trailing_price t) = some m ∧ matchedZero m = true)) ∧
    (∀ t : List Char, hasSub (chars "0.00") t = false →
      reSearchNum (trailing_price t) = none → is_free_label t = false) ∧
    (∀ p : SettingsPage, REvent.clickRenew ∈ (check_and_renew p).2 →
      ∃ t0, find_first_text p renew_selectors = Except.ok (some t0) ∧
        is_free_label (pyStrip t0) = true) := by
  refine ⟨?_, ?_, ?_⟩
  · intro t
    rw [is_free_label]
    cases hs : hasSub (chars "0.00") t
    · simp only [Bool.false_eq_true, if_false]
      by_cases hp : trailing_price t = []
      · simp [hp, reSearchNum]
      · simp only [hp, ne_eq, not_false_eq_true, if_true]
        cases hm : reSearchNum (trailing_price t) with
        | none => simp
        | some m => simp [hm]
    · simp
  · intro t h1 h2
    rw [is_free_label]
    simp only [h1, Bool.false_eq_true, if_false]
    by_cases hp : trailing_price t = []
    · simp [hp]
    · simp [hp, h2]
  · intro p hmem
    cases hb : find_first_text p balance_selectors with
    | error m => simp [check_and_renew, hb] at hmem
    | ok ob =>
      cases he : find_first_text p expiration_selectors with
      | error m => simp [check_and_renew, hb, he] at hmem
      | ok oe =>
        cases hr : find_first_text p renew_selectors with
        | error m => simp [check_and_renew, hb, he, hr] at hmem
        | ok or0 =>
          cases or0 with
          | none => simp [check_and_renew, hb, he, hr] at hmem
          | some t0 =>
            by_cases ht : pyStrip t0 = []
            · simp [check_and_renew, hb, he, hr, ht] at hmem
            · cases hf : is_free_label (pyStrip t0) with
              | true => exact ⟨t0, rfl, hf⟩
              | false => simp [check_and_renew, hb, he, hr, ht, hf] at hmem

/-- C5 witness: an unparseable label with no zero token is not free. -/
theorem renew_eligibility_spec_witness :
    is_free_label (chars "Renew Server - FREE") = false :=
  renew_eligibility_spec.2.1 (chars "Renew Server - FREE") (by decide) (by decide)

/-! ## C4: renewal confirmation handshake -/

theorem find_confirm_iff (p : SettingsPage) : ∀ ss : List String,
    find_confirm p ss = true ↔ ∃ s ∈ ss, p.confirm s = ConfirmProbe.clickable
  | [] => by simp [find_confirm]
  | s :: rest => by
    cases hc : p.confirm s with
    | clickable => simp [find_confirm, hc]
    | raises => simp [find_confirm, hc, find_confirm_iff p rest]
    | absent => simp [find_confirm, hc, find_confirm_iff p rest]
    | hidden => simp [find_confirm, hc, find_confirm_iff p rest]
    | clickRaises => simp [find_confirm, hc, find_confirm_iff p rest]

theorem check_and_renew_free_reduce (p : SettingsPage) (ob oe : Option (List Char))
    (t0 : List Char)
    (hb : find_first_text p balance_selectors = Except.ok ob)
    (he : find_first_text p expiration_selectors = Except.ok oe)
    (hr : find_first_text p renew_selectors = Except.ok (some t0))
    (ht : pyStrip t0 ≠ [])
    (hf : is_free_label (pyStrip t0) = true)
    (hrc : p.renewClick = none) :
    (check_and_renew p).1.renewed = find_confirm p confirm_selectors ∧
    (find_confirm p confirm_selectors = false →
      (check_and_renew p).1.message = chars "未找到确认按钮") := by
  rcases ob with _ | tb <;> rcases oe with _ | te <;>
    cases hcf : find_confirm p confirm_selectors <;>
      simp [check_and_renew, hb, he, hr, ht, hf, hrc, hcf, renewInit]

/-- C4: once the free-renewal click has happened without raising, the result
reports `renewed = true` exactly when some confirmation candidate was
present, visible and successfully clicked; when no such candidate exists the
result is `renewed = false` with message `未找到确认按钮`; and any exception
the protocol raises into its outer handler is converted into the result's
`检查失败:`-prefixed message instead of propagating. -/
theorem renew_confirmation_spec :
    (∀ p : SettingsPage, ∀ ob oe t0,
      find_first_text p balance_selectors = Except.ok ob →
      find_first_text p expiration_selectors = Except.ok oe →
      find_first_text p renew_selectors = Except.ok (some t0) →
      pyStrip t0 ≠ [] →
      is_free_label (pyStrip t0) = true →
      p.renewClick = none →
      (((check_and_renew p).1.renewed = true) ↔
        ∃ s ∈ confirm_selectors, p.confirm s = ConfirmProbe.clickable) ∧
      ((¬ ∃ s ∈ confirm_selectors, p.confirm s = ConfirmProbe.clickable) →
        (check_and_renew p).1.renewed = false ∧
        (check_and_renew p).1.message = chars "未找到确认按钮")) ∧
    (∀ p : SettingsPage, ∀ m, protocol_exception p = some m →
      (check_and_renew p).1.message = chars "检查失败: " ++ m.take 50) := by
  constructor
  · intro p ob oe t0 hb he hr ht hf hrc
    have hred := check_and_renew_free_reduce p ob oe t0 hb he hr ht hf hrc
    constructor
    · rw [hred.1]
      exact find_confirm_iff p confirm_selectors
    · intro hne
      have hcf : find_confirm p confirm_selectors = false := by
        cases h : find_confirm p confirm_selectors with
        | true => exact absurd ((find_confirm_iff p confirm_selectors).mp h) hne
        | false => rfl
      exact ⟨by rw [hred.1, hcf], hred.2 hcf⟩
  · intro p m hpe
    cases hb : find_first_text p balance_selectors with
    | error mb =>
      rw [protocol_exception, hb] at hpe
      cases hpe
      simp [check_and_renew, hb, exnResult]
    | ok ob =>
      cases he : find_first_text p expiration_selectors with
      | error me =>
        rw [protocol_exception, hb, he] at hpe
        cases hpe
        simp [check_and_renew, hb, he, exnResult]
      | ok oe =>
        cases hr : find_first_text p renew_selectors with
        | error mr =>
          rw [protocol_exception, hb, he, hr] at hpe
          cases hpe
          simp [check_and_renew, hb, he, hr, exnResult]
        | ok or0 =>
          cases or0 with
          | none =>
            rw [protocol_exception, hb, he, hr] at hpe
            cases hpe
          | some t0 =>
            simp only [protocol_exception, hb, he, hr] at hpe
            by_cases hcond : pyStrip t0 ≠ [] ∧ is_free_label (pyStrip t0) = true
            · rw [if_pos hcond] at hpe
              simp [check_and_renew, hb, he, hr, hcond.1, hcond.2, hpe, exnResult]
            · rw [if_neg hcond] at hpe
              cases hpe

/-- C4 witness: on a page with a free label, a successful renewal click and a
clickable first confirmation control the result reports a completed
renewal. -/
theorem renew_confirmation_spec_witness :
    (check_and_renew pageW).1.renewed = true := by
  have h := (renew_confirmation_spec.1 pageW none none
    (chars "Renew Server - 0.00 USD") rfl rfl rfl (by decide) (by decide) rfl).1
  exact h.mpr ⟨"button:has-text(\"Yes, Renew Server\")", by simp [confirm_selectors], rfl⟩

/-! ## C9: notification dispatcher -/

/-- C9 counterexample: with an evidence file supplied and existing, a
transport exception during the attachment send is swallowed with only a
warning — no text-only resend of the summary happens, contrary to the claim
that every attachment-send failure falls back to a text send. -/
theorem notify_no_fallback_on_raise :
    envC9.screenshotFile = some (chars "output/screenshots/99-error.png") ∧
    envC9.fileExists = true ∧
    trRaise.photoPost = PostOutcome.raises (chars "timeout") ∧
    (notify_telegram envC9 trRaise).countP isTextSendEv = 0 := by
  refine ⟨rfl, rfl, rfl, by decide⟩

/-- C9 (amended): the dispatcher never raises — a raised attachment send is
logged and swallowed with no text fallback, a raised text send is logged and
swallowed — while an attachment send that completes with a non-200 status is
followed by a text-only send of the same composed summary. -/
theorem notify_spec :
    (∀ env : NotifyEnv, ∀ tr : NotifyTransport, ∀ f code,
      env.botToken ≠ [] → env.chatId ≠ [] →
      env.screenshotFile = some f → env.fileExists = true → env.openOk = true →
      tr.photoPost = PostOutcome.status code → code ≠ 200 →
      TgEvent.textSend (compose_caption env.ok env.stage env.msg env.timeNow) ∈
        notify_telegram env tr) ∧
    (∀ env : NotifyEnv, ∀ tr : NotifyTransport, ∀ f m,
      env.botToken ≠ [] → env.chatId ≠ [] →
      env.screenshotFile = some f → env.fileExists = true → env.openOk = true →
      tr.photoPost = PostOutcome.raises m →
      notify_telegram env tr =
        [TgEvent.photoSend (compose_caption env.ok env.stage env.msg env.timeNow),
          TgEvent.warn (chars "Telegram 通知失败: " ++ m)]) ∧
    (∀ tr : NotifyTransport, ∀ text m, tr.textPost = PostOutcome.raises m →
      send_text_only tr text =
        [TgEvent.textSend text, TgEvent.warn (chars "发送文本失败: " ++ m)]) := by
  refine ⟨?_, ?_, ?_⟩
  · intro env tr f code h1 h2 h3 h4 h5 h6 h7
    simp only [notify_telegram, h1, h2, h3, h4, h5, h6]
    simp [h7, h1, h2]
    cases htx : tr.textPost with
    | status c2 =>
      by_cases hc2 : c2 = 200 <;> simp [send_text_only, htx, hc2]
    | raises m2 => simp [send_text_only, htx]
  · intro env tr f m h1 h2 h3 h4 h5 h6
    simp only [notify_telegram, h3]
    simp [h1, h2, h4, h5, h6]
  · intro tr text m h
    simp [send_text_only, h]

/-- C9 witness: a 500-status attachment send is followed by a text-only send
of the same summary. -/
theorem notify_spec_witness :
    TgEvent.textSend (compose_caption envC9.ok envC9.stage envC9.msg envC9.timeNow) ∈
      notify_telegram envC9 trStatus :=
  notify_spec.1 envC9 trStatus (chars "output/screenshots/99-error.png") 500
    (by decide) (by decide) rfl rfl rfl rfl (by decide)

/-! ## C1: process exit status -/

theorem run_accounts_length (outcomes : Nat → DOOutcome) :
    ∀ i accounts, (run_accounts outcomes i accounts).length = accounts.length
  | _, [] => rfl
  | i, _ :: rest => by
    simp [run_accounts, run_accounts_length outcomes (i + 1) rest]

/-- C1 counterexample: a credential batch that parses to zero accounts makes
the interactive-login script return normally — exit status 0 — without
reaching the report phase, contrary to the claim that such a configuration
failure yields a non-zero exit status (and to the exit-0-iff-report-phase
equivalence). -/
theorem do_zero_accounts_exit_zero :
    (do_run doEmpty).exitCode = 0 ∧
    (do_run doEmpty).reportDone = false ∧
    parse_accounts doEmpty.raw = [] := by
  refine ⟨rfl, rfl, rfl⟩

/-- C1 (amended): for the cookie-injection script the exit status is 0
exactly when the run completes the report phase, and every fatal
configuration failure (missing or empty credential input, or a credential
batch parsing to zero cookies) exits non-zero; for the interactive-login
script the exit status is 0 exactly when the report phase completed or the
credential batch parsed to zero accounts — a zero-account batch ends the run
with exit status 0 and no report. -/
theorem exit_status_spec :
    (∀ s : PBScenario, (pb_run s).exitCode = 0 ↔ (pb_run s).reportDone = true) ∧
    (∀ s : DOScenario, (do_run s).exitCode = 0 ↔
      ((do_run s).reportDone = true ∨ parse_accounts s.raw = [])) ∧
    (∀ s : PBScenario,
      (s.cookiesEnv = none ∨ s.cookiesEnv = some [] ∨
        (∃ e, s.cookiesEnv = some e ∧
          parse_cookie_string e (chars "panel.bytte.cloud") = [])) →
      (pb_run s).exitCode = 1) := by
  refine ⟨?_, ?_, ?_⟩
  · intro s
    cases henv : s.cookiesEnv with
    | none => simp [pb_run, henv]
    | some e =>
      by_cases he : e = []
      · simp [pb_run, henv, he]
      · by_cases hc : parse_cookie_string e (chars "panel.bytte.cloud") = [] <;>
          by_cases hg : s.gotoRaises <;>
          by_cases hl : s.redirectedToLogin <;>
          by_cases hs : s.servers = [] <;>
          by_cases hlr : s.lateRaises <;>
          simp [pb_run, henv, he, hc, hg, hl, hs, hlr]
  · intro s
    by_cases ha : parse_accounts s.raw = []
    · simp [do_run, ha]
    · by_cases hl : s.launchRaises <;> simp [do_run, ha, hl]
  · intro s h
    rcases h with h | h | ⟨e, he, hc⟩
    · simp [pb_run, h]
    · simp [pb_run, h]
    · by_cases hee : e = []
      · simp [pb_run, he, hee]
      · simp [pb_run, he, hee, hc]

/-- C1 witness: a run with no credential input at all exits with status 1. -/
theorem exit_status_spec_witness : (pb_run pbNoEnv).exitCode = 1 :=
  exit_status_spec.2.2 pbNoEnv (Or.inl rfl)

/-! ## C2: per-resource failure isolation -/

/-- C2: in a run that got past authentication and discovery, every server —
raising or not — contributes exactly its own result line in order (a raising
server contributes the truncated `❌` failure line), the credential-rotation
and report phases still execute, and in the interactive-login script every
account is processed regardless of earlier accounts failing, a failing
account yielding a failure record rather than an exception. -/
theorem batch_isolation_spec :
    (∀ s : PBScenario, ∀ e, s.cookiesEnv = some e → e ≠ [] →
      parse_cookie_string e (chars "panel.bytte.cloud") ≠ [] →
      s.gotoRaises = false → s.redirectedToLogin = false → s.servers ≠ [] →
      s.lateRaises = false →
      (pb_run s).resultLines =
        s.servers.map (fun sv => server_status_line sv.1.name sv.2) ∧
      (pb_run s).resultLines.length = s.servers.length ∧
      (pb_run s).reportDone = true ∧ (pb_run s).rotationAttempted = true) ∧
    (∀ name m, server_status_line name (ServerOutcome.err m) =
      chars "❌ " ++ name ++ chars ": " ++ m.take 30) ∧
    (∀ s : DOScenario, parse_accounts s.raw ≠ [] → s.launchRaises = false →
      (do_run s).results.length = (parse_accounts s.raw).length ∧
      (do_run s).reportDone = true) ∧
    (∀ a o m, o = DOOutcome.fail m →
      (execute_account_model a o).success = false ∧
      (execute_account_model a o).message = m) := by
  refine ⟨?_, ?_, ?_, ?_⟩
  · intro s e henv he hc hg hl hs hlr
    simp [pb_run, henv, he, hc, hg, hl, hs, hlr, process_servers]
  · intro name m
    rfl
  · intro s ha hl
    simp [do_run, ha, hl, run_accounts_length]
  · rintro a o m rfl
    exact ⟨rfl, rfl⟩

/-- C2 witness: a two-server run whose first server raises still reports
both servers and reaches the rotation and report phases. -/
theorem batch_isolation_spec_witness :
    (pb_run pbGood).resultLines.length = pbGood.servers.length ∧
    (pb_run pbGood).reportDone = true ∧
    (pb_run pbGood).rotationAttempted = true := by
  have h := batch_isolation_spec.1 pbGood (chars "remember_web_a=x") rfl
    (by decide) (by decide) rfl rfl (by decide) rfl
  exact ⟨h.2.1, h.2.2.1, h.2.2.2⟩

/-! ## C6: credential rotation serialization -/

theorem sort_key_mem (c : PWCookie) :
    sort_key c = 0 ∨ sort_key c = 1 ∨ sort_key c = 2 ∨ sort_key c = 3 ∨
      sort_key c = 10 := by
  rw [sort_key]
  split_ifs <;> simp

theorem insertByKey_append_lt (c : PWCookie) : ∀ l1 l2 : List PWCookie,
    (∀ d ∈ l1, sort_key d < sort_key c) →
    insertByKey c (l1 ++ l2) = l1 ++ insertByKey c l2
  | [], _, _ => rfl
  | d :: ds, l2, h => by
    have hd : sort_key d < sort_key c := h d (by simp)
    simp only [List.cons_append, insertByKey, hd, if_true]
    exact congrArg (List.cons d) (insertByKey_append_lt c ds l2 fun x hx => h x (by simp [hx]))

theorem insertByKey_head_ge (c : PWCookie) : ∀ l2 : List PWCookie,
    (∀ d ∈ l2, sort_key c ≤ sort_key d) →
    insertByKey c l2 = c :: l2
  | [], _ => rfl
  | d :: ds, h => by
    have hd := h d (by simp)
    simp [insertByKey, Nat.not_lt.mpr hd]

theorem key_of_mem_filter {k : Nat} {d : PWCookie} {l : List PWCookie}
    (h : d ∈ l.filter (fun x => sort_key x == k)) : sort_key d = k := by
  have := List.of_mem_filter h
  simpa using this

theorem sortCookies_buckets : ∀ l : List PWCookie,
    sortCookies l = priorityBuckets l
  | [] => rfl
  | c :: l => by
    have IH := sortCookies_buckets l
    rw [sortCookies, IH]
    rcases sort_key_mem c with hk | hk | hk | hk | hk
    · rw [priorityBuckets, priorityBuckets]
      simp only [List.append_assoc]
      rw [insertByKey_head_ge c _ (fun d hd => by rw [hk]; exact Nat.zero_le _)]
      simp [List.filter_cons, hk]
    · rw [priorityBuckets, priorityBuckets]
      simp only [List.append_assoc]
      rw [insertByKey_append_lt c _ _ (fun d hd => by
        rw [key_of_mem_filter hd, hk]
        omega)]
      rw [insertByKey_head_ge c _ (by
        intro d hd
        simp only [List.mem_append] at hd
        rcases hd with hd | hd | hd | hd <;> (rw [key_of_mem_filter hd, hk]) <;> omega)]
      simp [List.filter_cons, hk]
    · rw [priorityBuckets, priorityBuckets]
      simp only [List.append_assoc]
      rw [insertByKey_append_lt c _ _ (fun d hd => by
        rw [key_of_mem_filter hd, hk]
        omega)]
      rw [insertByKey_append_lt c _ _ (fun d hd => by
        rw [key_of_mem_filter hd, hk]
        omega)]
      rw [insertByKey_head_ge c _ (by
        intro d hd
        simp only [List.mem_append] at hd
        rcases hd with hd | hd | hd <;> (rw [key_of_mem_filter hd, hk]) <;> omega)]
      simp [List.filter_cons, hk]
    · rw [priorityBuckets, priorityBuckets]
      simp only [List.append_assoc]
      rw [insertByKey_append_lt c _ _ (fun d hd => by
        rw [key_of_mem_filter hd, hk]
        omega)]
      rw [insertByKey_append_lt c _ _ (fun d hd => by
        rw [key_of_mem_filter hd, hk]
        omega)]
      rw [insertByKey_append_lt c _ _ (fun d hd => by
        rw [key_of_mem_filter hd, hk]
        omega)]
      rw [insertByKey_head_ge c _ (by
        intro d hd
        simp only [List.mem_append] at hd
        rcases hd with hd | hd <;> (rw [key_of_mem_filter hd, hk]) <;> omega)]
      simp [List.filter_cons, hk]
    · rw [priorityBuckets, priorityBuckets]
      simp only [List.append_assoc]
      rw [insertByKey_append_lt c _ _ (fun d hd => by
        rw [key_of_mem_filter hd, hk]
        omega)]
      rw [insertByKey_append_lt c _ _ (fun d hd => by
        rw [key_of_mem_filter hd, hk]
        omega)]
      rw [insertByKey_append_lt c _ _ (fun d hd => by
        rw [key_of_mem_filter hd, hk]
        omega)]
      rw [insertByKey_append_lt c _ _ (fun d hd => by
        rw [key_of_mem_filter hd, hk]
        omega)]
      rw [insertByKey_head_ge c _ (fun d hd => by
        rw [key_of_mem_filter hd, hk])]
      simp [List.filter_cons, hk]

/-- C6: the rotation output keeps exactly the cookies whose names equal or
start with a recognized important prefix (in particular unrecognized names
are dropped), re-emits them bucketed in the fixed priority order
(`remember_web*`, then `pterodactyl_session`, then `XSRF-TOKEN`, then `cf_*`,
then all others, each bucket preserving input order), with every value
percent-encoded and the pairs joined by `"; "`; when no cookie matches, the
serializer returns the empty string and the run skips the secret-store
update without failing. -/
theorem rotation_serialization_spec :
    (∀ cookies : List PWCookie,
      sortCookies (filterImportant cookies) = priorityBuckets (filterImportant cookies)) ∧
    (∀ cookies : List PWCookie, filterImportant cookies ≠ [] →
      save_cookies_for_update cookies =
        joinSep (chars "; ") ((priorityBuckets (filterImportant cookies)).map cookiePart)) ∧
    (∀ cookies : List PWCookie, ∀ c : PWCookie,
      c ∈ filterImportant cookies ↔ (c ∈ cookies ∧ isImportantName c.name = true)) ∧
    (∀ cookies : List PWCookie, filterImportant cookies = [] →
      save_cookies_for_update cookies = []) ∧
    (∀ s : PBScenario, ∀ e, s.cookiesEnv = some e → e ≠ [] →
      parse_cookie_string e (chars "panel.bytte.cloud") ≠ [] →
      s.gotoRaises = false → s.redirectedToLogin = false → s.servers ≠ [] →
      s.lateRaises = false → filterImportant s.finalCookies = [] →
      (pb_run s).secretUpdateCalled = false ∧ (pb_run s).exitCode = 0) := by
  refine ⟨fun cookies => sortCookies_buckets _, ?_, ?_, ?_, ?_⟩
  · intro cookies h
    rw [save_cookies_for_update, if_neg h, sortCookies_buckets]
  · intro cookies c
    simp [filterImportant, List.mem_filter]
  · intro cookies h
    rw [save_cookies_for_update, if_pos h]
  · intro s e henv he hc hg hl hs hlr hfi
    have hsave : save_cookies_for_update s.finalCookies = [] := by
      rw [save_cookies_for_update, if_pos hfi]
    simp [pb_run, henv, he, hc, hg, hl, hs, hlr, hsave]

/-- C6 witness: the specification's example token set serializes to
`remember_web_x` then `_ga`, dropping `unknown_token`. -/
theorem rotation_serialization_spec_witness :
    save_cookies_for_update cookiesC6 =
      joinSep (chars "; ") ((priorityBuckets (filterImportant cookiesC6)).map cookiePart) ∧
    save_cookies_for_update cookiesC6 = chars "remember_web_x=a; _ga=b" :=
  ⟨rotation_serialization_spec.2.1 cookiesC6 (by decide), by decide⟩

/-! ## C10: serialization round trip -/

theorem hexVal_hexDigitChar {d : Nat} (h : d < 16) :
    hexVal (hexDigitChar d) = some d := by
  have key : ∀ f : Fin 16, hexVal (hexDigitChar f.val) = some f.val := by decide
  exact key ⟨d, h⟩

theorem hexDigitChar_ne_pct {d : Nat} (h : d < 16) : hexDigitChar d ≠ '%' := by
  have key : ∀ f : Fin 16, hexDigitChar f.val ≠ '%' := by decide
  exact key ⟨d, h⟩

theorem char_toNat_lt (c : Char) : c.toNat < 1114112 := by
  have h := c.valid
  show c.val.toNat < 1114112
  rcases h with h | h
  · exact Nat.lt_trans h (by norm_num)
  · exact h.2

theorem cpChar_toNat (c : Char) : cpChar c.toNat = c := Char.ofNat_toNat c

theorem utf8EncodeCp_bytes_lt {n : Nat} (h : n < 1114112) :
    ∀ b ∈ utf8EncodeCp n, b < 256 := by
  intro b hb
  rw [utf8EncodeCp] at hb
  split_ifs at hb <;> simp at hb <;> omega

theorem utf8EncodeCp_ne_nil (n : Nat) : utf8EncodeCp n ≠ [] := by
  rw [utf8EncodeCp]
  split_ifs <;> simp

theorem utf8Decode_encode_cons {n : Nat} (h : n < 1114112) (bs : List Nat) :
    utf8Decode (utf8EncodeCp n ++ bs) = n :: utf8Decode bs := by
  show utf8DecAux (utf8EncodeCp n ++ bs) 0 0 = n :: utf8DecAux bs 0 0
  rw [utf8EncodeCp]
  by_cases h1 : n < 128
  · rw [if_pos h1]
    show utf8DecAux (n :: bs) 0 0 = n :: utf8DecAux bs 0 0
    simp only [utf8DecAux]
    rw [if_pos h1]
  · rw [if_neg h1]
    by_cases h2 : n < 2048
    · rw [if_pos h2]
      show utf8DecAux ((192 + n / 64) :: (128 + n % 64) :: bs) 0 0 = n :: utf8DecAux bs 0 0
      simp only [utf8DecAux]
      rw [if_neg (by omega), if_neg (by omega), if_pos (by omega),
        if_pos (by simp [isCont]; omega), if_true]
      congr 1
      omega
    · rw [if_neg h2]
      by_cases h3 : n < 65536
      · rw [if_pos h3]
        show utf8DecAux ((224 + n / 4096) :: (128 + n / 64 % 64) :: (128 + n % 64) :: bs)
          0 0 = n :: utf8DecAux bs 0 0
        simp only [utf8DecAux]
        rw [if_neg (by omega), if_neg (by omega), if_neg (by omega), if_pos (by omega),
          if_pos (by simp [isCont]; omega), if_neg (by omega),
          if_pos (by simp [isCont]; omega), if_true]
        congr 1
        omega
      · rw [if_neg h3]
        show utf8DecAux ((240 + n / 262144) :: (128 + n / 4096 % 64) :: (128 + n / 64 % 64)
          :: (128 + n % 64) :: bs) 0 0 = n :: utf8DecAux bs 0 0
        simp only [utf8DecAux]
        rw [if_neg (by omega), if_neg (by omega), if_neg (by omega), if_neg (by omega),
          if_pos (by omega), if_pos (by simp [isCont]; omega), if_neg (by omega),
          if_pos (by simp [isCont]; omega), if_neg (by omega),
          if_pos (by simp [isCont]; omega), if_true]
        congr 1
        omega

theorem encBytes_cons (c : Char) (cs : List Char) :
    encBytes (c :: cs) = utf8EncodeCp c.toNat ++ encBytes cs := rfl

theorem encBytes_append : ∀ a b : List Char, encBytes (a ++ b) = encBytes a ++ encBytes b
  | [], _ => rfl
  | c :: cs, b => by
    rw [List.cons_append, encBytes_cons, encBytes_cons, encBytes_append cs b,
      List.append_assoc]

theorem utf8Decode_encBytes (cs : List Char) (bs : List Nat) :
    utf8Decode (encBytes cs ++ bs) = cs.map Char.toNat ++ utf8Decode bs := by
  induction cs with
  | nil => rfl
  | cons c rest IH =>
    rw [encBytes_cons, List.append_assoc, utf8Decode_encode_cons (char_toNat_lt c), IH]
    rfl

theorem utf8DecodeChars_encBytes (cs : List Char) :
    utf8DecodeChars (encBytes cs) = cs := by
  have h := utf8Decode_encBytes cs []
  rw [List.append_nil] at h
  rw [utf8DecodeChars, h]
  have : utf8Decode [] = [] := rfl
  rw [this, List.append_nil, List.map_map]
  have : cpChar ∘ Char.toNat = id := by
    funext c
    exact cpChar_toNat c
  rw [this, List.map_id]

theorem flatJoin_cons {α : Type} (x : List α) (ls : List (List α)) :
    flatJoin (x :: ls) = x ++ flatJoin ls := rfl

theorem mem_flatJoin {α : Type} (x : α) : ∀ ls : List (List α),
    x ∈ flatJoin ls ↔ ∃ l ∈ ls, x ∈ l
  | [] => by simp [flatJoin]
  | l :: ls => by
    rw [flatJoin_cons]
    simp [List.mem_append, mem_flatJoin x ls]

theorem quoteChar_encSafe {c : Char} : ∀ ch ∈ quoteChar c, encSafeChar ch = true := by
  intro ch hch
  rw [quoteChar] at hch
  by_cases hs : pySafe c
  · rw [if_pos hs] at hch
    simp only [List.mem_singleton] at hch
    subst hch
    simp [encSafeChar, hs]
  · rw [if_neg hs] at hch
    rw [mem_flatJoin] at hch
    obtain ⟨l, hl, hchl⟩ := hch
    simp only [List.mem_map] at hl
    obtain ⟨b, hb, rfl⟩ := hl
    have hblt : b < 256 := utf8EncodeCp_bytes_lt (char_toNat_lt c) b hb
    rw [pctOfByte] at hchl
    simp only [List.mem_cons, List.mem_singleton, List.not_mem_nil, or_false] at hchl
    rcases hchl with rfl | rfl | rfl
    · decide
    · rw [encSafeChar, hexVal_hexDigitChar (by omega : b / 16 < 16)]
      simp
    · rw [encSafeChar, hexVal_hexDigitChar (by omega : b % 16 < 16)]
      simp

theorem quoteNoSafe_nil : quoteNoSafe [] = [] := rfl

theorem quoteNoSafe_cons (c : Char) (v : List Char) :
    quoteNoSafe (c :: v) = quoteChar c ++ quoteNoSafe v := rfl

theorem quoteNoSafe_append : ∀ a b : List Char,
    quoteNoSafe (a ++ b) = quoteNoSafe a ++ quoteNoSafe b
  | [], _ => rfl
  | c :: cs, b => by
    rw [List.cons_append, quoteNoSafe_cons, quoteNoSafe_cons, quoteNoSafe_append cs b,
      List.append_assoc]

theorem quoteNoSafe_all_safe : ∀ w : List Char, (∀ c ∈ w, pySafe c = true) →
    quoteNoSafe w = w
  | [], _ => rfl
  | c :: cs, h => by
    rw [quoteNoSafe_cons, quoteChar, if_pos (h c (by simp))]
    rw [quoteNoSafe_all_safe cs fun x hx => h x (by simp [hx])]
    rfl

theorem quoteNoSafe_encSafe {v : List Char} : ∀ ch ∈ quoteNoSafe v, encSafeChar ch = true := by
  induction v with
  | nil => intro ch hch; simp [quoteNoSafe_nil] at hch
  | cons c cs IH =>
    intro ch hch
    rw [quoteNoSafe_cons, List.mem_append] at hch
    rcases hch with hch | hch
    · exact quoteChar_encSafe ch hch
    · exact IH ch hch

theorem encSafeChar_not_space {ch : Char} (h : pySpace ch = true) :
    encSafeChar ch = false := by
  rw [pySpace] at h
  simp only [Bool.or_eq_true, beq_iff_eq] at h
  rcases h with ((((rfl | rfl) | rfl) | rfl) | rfl) | rfl <;> decide

theorem pySafe_ne_pct {c : Char} (h : pySafe c = true) : c ≠ '%' := by
  intro hc
  subst hc
  exact absurd h (by decide)

theorem quoteChar_unsafe_head {c : Char} (h : pySafe c = false) :
    ∃ tl, quoteChar c = '%' :: tl := by
  rw [quoteChar, if_neg (by simp [h])]
  obtain ⟨b, bs, hbs⟩ : ∃ b bs, utf8EncodeCp c.toNat = b :: bs := by
    cases he : utf8EncodeCp c.toNat with
    | nil => exact absurd he (utf8EncodeCp_ne_nil _)
    | cons b bs => exact ⟨b, bs, rfl⟩
  rw [hbs]
  exact ⟨_, rfl⟩

theorem splitOnChar_ne_nil (sep : Char) : ∀ l : List Char, splitOnChar sep l ≠ []
  | [] => by simp [splitOnChar]
  | c :: rest => by
    rw [splitOnChar]
    by_cases hc : c = sep
    · simp [hc]
    · rw [if_neg hc]
      cases hr : splitOnChar sep rest <;> simp

theorem splitOnChar_cons_sep (sep : Char) (l : List Char) :
    splitOnChar sep (sep :: l) = [] :: splitOnChar sep l := by
  rw [splitOnChar, if_pos rfl]

theorem splitOnChar_cons_ne {sep c : Char} (l : List Char) (hc : c ≠ sep) :
    ∀ h t, splitOnChar sep l = h :: t →
      splitOnChar sep (c :: l) = (c :: h) :: t := by
  intro h t hl
  rw [splitOnChar, if_neg hc, hl]

theorem splitOnChar_append_no_sep {sep : Char} : ∀ a : List Char, (∀ c ∈ a, c ≠ sep) →
    ∀ (b : List Char) h t, splitOnChar sep b = h :: t →
      splitOnChar sep (a ++ b) = (a ++ h) :: t
  | [], _, b, h, t, hb => by simpa using hb
  | c :: cs, ha, b, h, t, hb => by
    rw [List.cons_append]
    have hc : c ≠ sep := ha c (by simp)
    have IH := splitOnChar_append_no_sep cs (fun x hx => ha x (by simp [hx])) b h t hb
    rw [splitOnChar_cons_ne _ hc _ _ IH]
    rfl

theorem splitOnChar_no_sep {sep : Char} : ∀ l : List Char, (∀ c ∈ l, c ≠ sep) →
    splitOnChar sep l = [l]
  | [], _ => rfl
  | c :: cs, h => by
    have := splitOnChar_no_sep cs fun x hx => h x (by simp [hx])
    rw [splitOnChar_cons_ne cs (h c (by simp)) cs [] this]

theorem hexPair_no_pct {b : Nat} (hb : b < 256) : ∀ c ∈ hexPair b, c ≠ '%' := by
  intro c hc
  rw [hexPair] at hc
  simp only [List.mem_cons, List.mem_singleton, List.not_mem_nil, or_false] at hc
  rcases hc with rfl | rfl
  · exact hexDigitChar_ne_pct (by omega)
  · exact hexDigitChar_ne_pct (by omega)

theorem pctOfByte_eq (b : Nat) : pctOfByte b = '%' :: hexPair b := rfl

theorem split_pct_run : ∀ bs : List Nat, bs ≠ [] → (∀ b ∈ bs, b < 256) →
    ∀ Q : List Char,
      splitOnChar '%' (flatJoin (bs.map pctOfByte) ++ Q) =
        [] :: byteSegs bs (splitOnChar '%' Q)
  | [], hne, _, _ => absurd rfl hne
  | [b], _, hlt, Q => by
    have hb : b < 256 := hlt b (by simp)
    obtain ⟨h0, t0, hq⟩ : ∃ h0 t0, splitOnChar '%' Q = h0 :: t0 := by
      cases hq : splitOnChar '%' Q with
      | nil => exact absurd hq (splitOnChar_ne_nil '%' Q)
      | cons h0 t0 => exact ⟨h0, t0, rfl⟩
    show splitOnChar '%' ((pctOfByte b ++ []) ++ Q) = [] :: byteSegs [b] (splitOnChar '%' Q)
    rw [List.append_nil, pctOfByte_eq, List.cons_append, splitOnChar_cons_sep]
    rw [splitOnChar_append_no_sep (hexPair b) (hexPair_no_pct hb) Q h0 t0 hq]
    rw [hq]
    rfl
  | b :: b2 :: bs, _, hlt, Q => by
    have hb : b < 256 := hlt b (by simp)
    have IH := split_pct_run (b2 :: bs) (by simp) (fun x hx => hlt x (by simp [hx])) Q
    show splitOnChar '%' ((pctOfByte b ++ flatJoin ((b2 :: bs).map pctOfByte)) ++ Q) =
      [] :: byteSegs (b :: b2 :: bs) (splitOnChar '%' Q)
    rw [pctOfByte_eq, List.cons_append, List.cons_append, List.append_assoc,
      splitOnChar_cons_sep]
    rw [splitOnChar_append_no_sep (hexPair b) (hexPair_no_pct hb) _ _ _ IH]
    rfl

theorem hexPair_val {b : Nat} (hb : b < 256) :
    hexVal (hexDigitChar (b / 16)) = some (b / 16) ∧
    hexVal (hexDigitChar (b % 16)) = some (b % 16) :=
  ⟨hexVal_hexDigitChar (by omega), hexVal_hexDigitChar (by omega)⟩

theorem unquoteSegs_byteSegs_acc : ∀ bs : List Nat, bs ≠ [] → (∀ b ∈ bs, b < 256) →
    ∀ (t0 : List (List Char)) (buf : List Nat),
      unquoteSegs (byteSegs bs ([] :: t0)) buf = unquoteSegs t0 (buf ++ bs)
  | [], hne, _, _, _ => absurd rfl hne
  | [b], _, hlt, t0, buf => by
    have hb : b < 256 := hlt b (by simp)
    show unquoteSegs ((hexPair b ++ []) :: t0) buf = unquoteSegs t0 (buf ++ [b])
    rw [List.append_nil, hexPair, unquoteSegs]
    rw [(hexPair_val hb).1, (hexPair_val hb).2]
    have hbv : 16 * (b / 16) + b % 16 = b := by omega
    simp [hbv]
  | b :: b2 :: bs, _, hlt, t0, buf => by
    have hb : b < 256 := hlt b (by simp)
    have IH := unquoteSegs_byteSegs_acc (b2 :: bs) (by simp)
      (fun x hx => hlt x (by simp [hx])) t0 (buf ++ [b])
    show unquoteSegs (hexPair b :: byteSegs (b2 :: bs) ([] :: t0)) buf =
      unquoteSegs t0 (buf ++ b :: b2 :: bs)
    rw [hexPair, unquoteSegs]
    rw [(hexPair_val hb).1, (hexPair_val hb).2]
    have hbv : 16 * (b / 16) + b % 16 = b := by omega
    simp only [hbv, if_pos rfl, List.nil_eq, reduceIte]
    rw [IH]
    simp [List.append_assoc]

theorem unquoteSegs_byteSegs_flush : ∀ bs : List Nat, bs ≠ [] → (∀ b ∈ bs, b < 256) →
    ∀ (h0 : List Char) (t0 : List (List Char)) (buf : List Nat), h0 ≠ [] →
      unquoteSegs (byteSegs bs (h0 :: t0)) buf =
        utf8DecodeChars (buf ++ bs) ++ h0 ++ unquoteSegs t0 []
  | [], hne, _, _, _, _, _ => absurd rfl hne
  | [b], _, hlt, h0, t0, buf, hh0 => by
    have hb : b < 256 := hlt b (by simp)
    show unquoteSegs ((hexPair b ++ h0) :: t0) buf =
      utf8DecodeChars (buf ++ [b]) ++ h0 ++ unquoteSegs t0 []
    rw [hexPair, List.cons_append, List.cons_append, List.nil_append, unquoteSegs]
    rw [(hexPair_val hb).1, (hexPair_val hb).2]
    dsimp only
    rw [if_neg hh0]
    have hbv : 16 * (b / 16) + b % 16 = b := by omega
    simp [hbv, List.append_assoc]
  | b :: b2 :: bs, _, hlt, h0, t0, buf, hh0 => by
    have hb : b < 256 := hlt b (by simp)
    have IH := unquoteSegs_byteSegs_flush (b2 :: bs) (by simp)
      (fun x hx => hlt x (by simp [hx])) h0 t0 (buf ++ [b]) hh0
    show unquoteSegs (hexPair b :: byteSegs (b2 :: bs) (h0 :: t0)) buf =
      utf8DecodeChars (buf ++ b :: b2 :: bs) ++ h0 ++ unquoteSegs t0 []
    rw [hexPair, unquoteSegs]
    rw [(hexPair_val hb).1, (hexPair_val hb).2]
    have hbv : 16 * (b / 16) + b % 16 = b := by omega
    simp only [hbv, if_pos rfl, List.nil_eq, reduceIte]
    rw [IH]
    simp [List.append_assoc]

theorem dropWhile_head_not {p : Char → Bool} : ∀ (l : List Char) (x : Char)
    (xs : List Char), l.dropWhile p = x :: xs → p x = false
  | [], _, _, h => by simp at h
  | c :: cs, x, xs, h => by
    by_cases hc : p c
    · rw [List.dropWhile_cons_of_pos hc] at h
      exact dropWhile_head_not cs x xs h
    · rw [List.dropWhile_cons_of_neg hc] at h
      cases h
      exact Bool.of_not_eq_true hc

theorem length_dropWhile_le (p : Char → Bool) : ∀ l : List Char,
    (l.dropWhile p).length ≤ l.length
  | [] => Nat.le_refl _
  | c :: cs => by
    by_cases hc : p c
    · rw [List.dropWhile_cons_of_pos hc]
      exact Nat.le_trans (length_dropWhile_le p cs) (by simp)
    · rw [List.dropWhile_cons_of_neg hc]

theorem split_quote_unsafe_head : ∀ v : List Char,
    (v = [] ∨ ∃ c r, v = c :: r ∧ pySafe c = false) →
    ∃ t, splitOnChar '%' (quoteNoSafe v) = [] :: t := by
  intro v hv
  rcases hv with rfl | ⟨c, r, rfl, hc⟩
  · exact ⟨[], rfl⟩
  · obtain ⟨tl, htl⟩ := quoteChar_unsafe_head hc
    rw [quoteNoSafe_cons, htl, List.cons_append, splitOnChar_cons_sep]
    exact ⟨_, rfl⟩

theorem unquote_quote_core : ∀ (fuel : Nat) (v : List Char), v.length ≤ fuel →
    (v = [] ∨ ∃ c r, v = c :: r ∧ pySafe c = false) →
    ∀ cs : List Char,
      unquoteSegs (splitOnChar '%' (quoteNoSafe v)).tail (encBytes cs) = cs ++ v := by
  intro fuel
  induction fuel with
  | zero =>
    intro v hlen hv cs
    have hv0 : v = [] := List.length_eq_zero.mp (Nat.le_antisymm hlen (Nat.zero_le _))
    subst hv0
    show unquoteSegs [] (encBytes cs) = cs ++ []
    rw [List.append_nil, unquoteSegs]
    exact utf8DecodeChars_encBytes cs
  | succ fuel IH =>
    intro v hlen hv cs
    rcases hv with rfl | ⟨c, r, rfl, hc⟩
    · show unquoteSegs [] (encBytes cs) = cs ++ []
      rw [List.append_nil, unquoteSegs]
      exact utf8DecodeChars_encBytes cs
    · -- v = c :: r with c unsafe
      have hbs_ne : utf8EncodeCp c.toNat ≠ [] := utf8EncodeCp_ne_nil _
      have hbs_lt : ∀ b ∈ utf8EncodeCp c.toNat, b < 256 :=
        utf8EncodeCp_bytes_lt (char_toNat_lt c)
      -- split r into its safe run w and the remainder v2
      have hr : r = r.takeWhile pySafe ++ r.dropWhile pySafe :=
        (List.takeWhile_append_dropWhile pySafe r).symm
      have hw_safe : ∀ x ∈ r.takeWhile pySafe, pySafe x = true :=
        fun x hx => List.mem_takeWhile_imp hx
      have hv2 : r.dropWhile pySafe = [] ∨
          ∃ c2 r2, r.dropWhile pySafe = c2 :: r2 ∧ pySafe c2 = false := by
        cases hd : r.dropWhile pySafe with
        | nil => exact Or.inl rfl
        | cons c2 r2 => exact Or.inr ⟨c2, r2, rfl, dropWhile_head_not r c2 r2 hd⟩
      have hv2len : (r.dropWhile pySafe).length ≤ fuel := by
        have h1 := length_dropWhile_le pySafe r
        simp only [List.length_cons] at hlen
        omega
      obtain ⟨t2, ht2⟩ := split_quote_unsafe_head (r.dropWhile pySafe) hv2
      have hqr : quoteNoSafe r = r.takeWhile pySafe ++ quoteNoSafe (r.dropWhile pySafe) := by
        conv_lhs => rw [hr]
        rw [quoteNoSafe_append, quoteNoSafe_all_safe _ hw_safe]
      have hw_no_pct : ∀ x ∈ r.takeWhile pySafe, x ≠ '%' :=
        fun x hx => pySafe_ne_pct (hw_safe x hx)
      have hsplit_r : splitOnChar '%' (quoteNoSafe r) = (r.takeWhile pySafe) :: t2 := by
        rw [hqr]
        have := splitOnChar_append_no_sep (r.takeWhile pySafe) hw_no_pct
          (quoteNoSafe (r.dropWhile pySafe)) [] t2 ht2
        rw [this, List.append_nil]
      have hquote_v : quoteNoSafe (c :: r) =
          flatJoin ((utf8EncodeCp c.toNat).map pctOfByte) ++ quoteNoSafe r := by
        rw [quoteNoSafe_cons, quoteChar, if_neg (by simp [hc])]
      have hsplit_v : splitOnChar '%' (quoteNoSafe (c :: r)) =
          [] :: byteSegs (utf8EncodeCp c.toNat) ((r.takeWhile pySafe) :: t2) := by
        rw [hquote_v, split_pct_run _ hbs_ne hbs_lt, hsplit_r]
      rw [hsplit_v]
      show unquoteSegs (byteSegs (utf8EncodeCp c.toNat) ((r.takeWhile pySafe) :: t2))
        (encBytes cs) = cs ++ c :: r
      by_cases hw : r.takeWhile pySafe = []
      · -- no safe run: keep accumulating into the byte buffer
        rw [hw]
        rw [unquoteSegs_byteSegs_acc _ hbs_ne hbs_lt t2 (encBytes cs)]
        have henc : encBytes cs ++ utf8EncodeCp c.toNat = encBytes (cs ++ [c]) := by
          rw [encBytes_append, encBytes_cons]
          have h0 : encBytes ([] : List Char) = [] := rfl
          rw [h0, List.append_nil]
        rw [henc]
        have ht2tail : t2 = (splitOnChar '%' (quoteNoSafe (r.dropWhile pySafe))).tail := by
          rw [ht2]
          rfl
        rw [ht2tail, IH (r.dropWhile pySafe) hv2len hv2 (cs ++ [c])]
        have : r = r.dropWhile pySafe := by
          conv_lhs => rw [hr, hw]
          rfl
        rw [← this, List.append_assoc]
        rfl
      · -- a safe run follows: the buffered bytes flush before it
        rw [unquoteSegs_byteSegs_flush _ hbs_ne hbs_lt _ t2 (encBytes cs) hw]
        have henc : encBytes cs ++ utf8EncodeCp c.toNat = encBytes (cs ++ [c]) := by
          rw [encBytes_append, encBytes_cons]
          have h0 : encBytes ([] : List Char) = [] := rfl
          rw [h0, List.append_nil]
        rw [henc, utf8DecodeChars_encBytes]
        have ht2tail : t2 = (splitOnChar '%' (quoteNoSafe (r.dropWhile pySafe))).tail := by
          rw [ht2]
          rfl
        have hempty : (encBytes ([] : List Char)) = [] := rfl
        have hseg := IH (r.dropWhile pySafe) hv2len hv2 []
        rw [hempty] at hseg
        rw [ht2tail, hseg]
        conv_rhs => rw [hr]
        simp [List.append_assoc]

theorem unquoteChars_quoteNoSafe (v : List Char) :
    unquoteChars (quoteNoSafe v) = v := by
  have hv2 : v.dropWhile pySafe = [] ∨
      ∃ c2 r2, v.dropWhile pySafe = c2 :: r2 ∧ pySafe c2 = false := by
    cases hd : v.dropWhile pySafe with
    | nil => exact Or.inl rfl
    | cons c2 r2 => exact Or.inr ⟨c2, r2, rfl, dropWhile_head_not v c2 r2 hd⟩
  obtain ⟨t2, ht2⟩ := split_quote_unsafe_head (v.dropWhile pySafe) hv2
  have hw_safe : ∀ x ∈ v.takeWhile pySafe, pySafe x = true :=
    fun x hx => List.mem_takeWhile_imp hx
  have hqv : quoteNoSafe v = v.takeWhile pySafe ++ quoteNoSafe (v.dropWhile pySafe) := by
    conv_lhs => rw [← List.takeWhile_append_dropWhile pySafe v]
    rw [quoteNoSafe_append, quoteNoSafe_all_safe _ hw_safe]
  have hsplit : splitOnChar '%' (quoteNoSafe v) = (v.takeWhile pySafe) :: t2 := by
    rw [hqv]
    have := splitOnChar_append_no_sep (v.takeWhile pySafe)
      (fun x hx => pySafe_ne_pct (hw_safe x hx))
      (quoteNoSafe (v.dropWhile pySafe)) [] t2 ht2
    rw [this, List.append_nil]
  rw [unquoteChars, hsplit]
  dsimp only
  have ht2tail : t2 = (splitOnChar '%' (quoteNoSafe (v.dropWhile pySafe))).tail := by
    rw [ht2]
    rfl
  have hcore := unquote_quote_core (v.dropWhile pySafe).length (v.dropWhile pySafe)
    (Nat.le_refl _) hv2 []
  have hempty : (encBytes ([] : List Char)) = [] := rfl
  rw [hempty] at hcore
  rw [ht2tail, hcore, List.nil_append]
  exact List.takeWhile_append_dropWhile pySafe v

theorem dropWhile_eq_self_of_head {p : Char → Bool} {l : List Char}
    (h : ∀ c r, l = c :: r → p c = false) : l.dropWhile p = l := by
  cases l with
  | nil => rfl
  | cons c r => exact List.dropWhile_cons_of_neg (by simp [h c r rfl])

theorem pyStrip_eq_self_of_ends {l : List Char}
    (hhead : ∀ c r, l = c :: r → pySpace c = false)
    (hlast : ∀ c r, l.reverse = c :: r → pySpace c = false) : pyStrip l = l := by
  rw [pyStrip, dropWhile_eq_self_of_head hhead, dropWhile_eq_self_of_head hlast,
    List.reverse_reverse]

theorem pyStrip_no_space {l : List Char} (h : ∀ c ∈ l, pySpace c = false) :
    pyStrip l = l :=
  pyStrip_eq_self_of_ends (fun c r hl => h c (by rw [hl]; simp))
    (fun c r hl => h c (by
      have : c ∈ l.reverse := by rw [hl]; simp
      simpa using this))

theorem pyStrip_cons_space {c : Char} (l : List Char) (h : pySpace c = true) :
    pyStrip (c :: l) = pyStrip l := by
  rw [pyStrip, pyStrip, List.dropWhile_cons_of_pos h]

theorem pyStrip_length_le (l : List Char) : (pyStrip l).length ≤ l.length := by
  rw [pyStrip]
  calc ((l.dropWhile pySpace).reverse.dropWhile pySpace).reverse.length
      = ((l.dropWhile pySpace).reverse.dropWhile pySpace).length := by simp
    _ ≤ (l.dropWhile pySpace).reverse.length := length_dropWhile_le _ _
    _ = (l.dropWhile pySpace).length := by simp
    _ ≤ l.length := length_dropWhile_le _ _

theorem pyStrip_fix_head {l : List Char} (hfix : pyStrip l = l) :
    ∀ c r, l = c :: r → pySpace c = false := by
  intro c r hl
  subst hl
  cases hsp : pySpace c with
  | false => rfl
  | true =>
    exfalso
    have h1 : pyStrip (c :: r) = pyStrip r := pyStrip_cons_space r hsp
    have h2 := pyStrip_length_le r
    rw [hfix] at h1
    have : (c :: r).length = (pyStrip r).length := by rw [h1]
    simp only [List.length_cons] at this
    omega

theorem isImportantName_ne_nil {name : List Char} (h : isImportantName name = true) :
    name ≠ [] := by
  intro hn
  subst hn
  exact absurd h (by decide)

theorem encSafe_not_space {ch : Char} (h : encSafeChar ch = true) :
    pySpace ch = false := by
  cases hsp : pySpace ch with
  | false => rfl
  | true => exact absurd h (by rw [encSafeChar_not_space hsp]; simp)

theorem encSafe_ne_semi {ch : Char} (h : encSafeChar ch = true) : ch ≠ ';' := by
  intro hc
  subst hc
  exact absurd h (by decide)

theorem encSafe_ne_eq {ch : Char} (h : encSafeChar ch = true) : ch ≠ '=' := by
  intro hc
  subst hc
  exact absurd h (by decide)

theorem cookiePart_no_semi {c : PWCookie} (h : ';' ∉ c.name) :
    ∀ ch ∈ cookiePart c, ch ≠ ';' := by
  intro ch hch
  rw [cookiePart, List.mem_append] at hch
  rcases hch with hch | hch
  · intro hc; subst hc; exact h hch
  · simp only [List.mem_cons] at hch
    rcases hch with rfl | hch
    · decide
    · exact encSafe_ne_semi (quoteNoSafe_encSafe ch hch)

theorem pyStrip_cookiePart {c : PWCookie} (hin : isImportantName c.name = true)
    (hstrip : pyStrip c.name = c.name) : pyStrip (cookiePart c) = cookiePart c := by
  apply pyStrip_eq_self_of_ends
  · intro x r hl
    obtain ⟨n0, nr, hn⟩ : ∃ n0 nr, c.name = n0 :: nr := by
      cases hn : c.name with
      | nil => exact absurd hn (isImportantName_ne_nil hin)
      | cons n0 nr => exact ⟨n0, nr, rfl⟩
    rw [cookiePart, hn, List.cons_append] at hl
    injection hl with hx hr
    rw [← hx]
    exact pyStrip_fix_head hstrip n0 nr hn
  · intro x r hl
    rw [cookiePart, List.reverse_append, List.reverse_cons] at hl
    cases he : quoteNoSafe c.value with
    | nil =>
      rw [he] at hl
      simp only [List.reverse_nil, List.nil_append, List.cons_append] at hl
      cases hl
      decide
    | cons e0 er =>
      have hrev : (quoteNoSafe c.value).reverse ≠ [] := by simp [he]
      obtain ⟨y, ys, hy⟩ : ∃ y ys, (quoteNoSafe c.value).reverse = y :: ys := by
        cases hq : (quoteNoSafe c.value).reverse with
        | nil => exact absurd hq hrev
        | cons y ys => exact ⟨y, ys, rfl⟩
      rw [hy, List.cons_append] at hl
      cases hl
      have hmem : x ∈ quoteNoSafe c.value := by
        have : x ∈ (quoteNoSafe c.value).reverse := by rw [hy]; simp
        simpa using this
      exact encSafe_not_space (quoteNoSafe_encSafe x hmem)

theorem splitAtFirstEq_append : ∀ a : List Char, '=' ∉ a → ∀ b : List Char,
    splitAtFirstEq (a ++ '=' :: b) = some (a, b)
  | [], _, b => by
    rw [List.nil_append, splitAtFirstEq, if_pos rfl]
  | c :: cs, ha, b => by
    have hc : c ≠ '=' := fun h => ha (by simp [h])
    have IH := splitAtFirstEq_append cs (fun h => ha (by simp [h])) b
    rw [List.cons_append, splitAtFirstEq, if_neg hc, IH]

theorem itemToCookie_space (dom item : List Char) :
    itemToCookie dom (' ' :: item) = itemToCookie dom item := by
  rw [itemToCookie, itemToCookie, pyStrip_cons_space item (by decide)]

theorem itemToCookie_cookiePart (dom : List Char) (c : PWCookie)
    (hin : isImportantName c.name = true) (hstrip : pyStrip c.name = c.name)
    (heq : '=' ∉ c.name) :
    ∃ pc : PWCookie, itemToCookie dom (cookiePart c) = some pc ∧
      pc.name = c.name ∧ pc.value = c.value := by
  have hfix := pyStrip_cookiePart hin hstrip
  have hne : cookiePart c ≠ [] := by
    rw [cookiePart]
    intro h
    rcases List.append_eq_nil.mp h with ⟨-, h2⟩
    exact List.cons_ne_nil _ _ h2
  have hsplit : splitAtFirstEq (cookiePart c) = some (c.name, quoteNoSafe c.value) :=
    splitAtFirstEq_append c.name heq (quoteNoSafe c.value)
  have hstripq : pyStrip (quoteNoSafe c.value) = quoteNoSafe c.value :=
    pyStrip_no_space fun ch hch => encSafe_not_space (quoteNoSafe_encSafe ch hch)
  have hres : itemToCookie dom (cookiePart c) = some ⟨pyStrip c.name,
      unquoteChars (pyStrip (quoteNoSafe c.value)), dom, chars "/",
      (lookupCfg (pyStrip c.name) cookie_configs).secure,
      (lookupCfg (pyStrip c.name) cookie_configs).httpOnly,
      (lookupCfg (pyStrip c.name) cookie_configs).sameSite⟩ := by
    simp only [itemToCookie, hfix]
    rw [if_neg hne, hsplit]
  refine ⟨_, hres, hstrip, ?_⟩
  show unquoteChars (pyStrip (quoteNoSafe c.value)) = c.value
  rw [hstripq, unquoteChars_quoteNoSafe]

theorem mem_insertByKey {x c : PWCookie} : ∀ l : List PWCookie,
    x ∈ insertByKey c l ↔ x = c ∨ x ∈ l
  | [] => by simp [insertByKey]
  | d :: ds => by
    rw [insertByKey]
    by_cases hd : sort_key d < sort_key c
    · rw [if_pos hd]
      simp only [List.mem_cons, mem_insertByKey ds]
      tauto
    · rw [if_neg hd]
      simp only [List.mem_cons]

theorem mem_sortCookies {x : PWCookie} : ∀ l : List PWCookie,
    x ∈ sortCookies l ↔ x ∈ l
  | [] => Iff.rfl
  | c :: cs => by
    rw [sortCookies, mem_insertByKey, mem_sortCookies cs]
    simp

theorem sortCookies_length : ∀ l : List PWCookie, (sortCookies l).length = l.length
  | [] => rfl
  | c :: cs => by
    have hil : ∀ (d : PWCookie) (m : List PWCookie),
        (insertByKey d m).length = m.length + 1 := by
      intro d m
      induction m with
      | nil => rfl
      | cons e es IH =>
        rw [insertByKey]
        by_cases he : sort_key e < sort_key d
        · rw [if_pos he]
          simp [IH]
        · rw [if_neg he]
          rfl
    rw [sortCookies, hil, sortCookies_length cs]
    rfl

theorem split_join_parts : ∀ (ps : List (List Char)) (p : List Char),
    (∀ q ∈ p :: ps, ∀ ch ∈ q, ch ≠ ';') →
    splitOnChar ';' (joinSep (chars "; ") (p :: ps)) =
      p :: ps.map (fun q => ' ' :: q)
  | [], p, h => by
    rw [joinSep, splitOnChar_no_sep p (h p (List.mem_cons_self p []))]
    rfl
  | q :: ps, p, h => by
    have IH := split_join_parts ps q fun x hx => h x (List.mem_cons_of_mem p hx)
    have hno : ∀ x ∈ p, x ≠ ';' := h p (List.mem_cons_self p (q :: ps))
    have hsp : splitOnChar ';' (' ' :: joinSep (chars "; ") (q :: ps)) =
        (' ' :: q) :: ps.map (fun x => ' ' :: x) :=
      splitOnChar_cons_ne _ (by decide) _ _ IH
    have hcons : splitOnChar ';' (';' :: ' ' :: joinSep (chars "; ") (q :: ps)) =
        [] :: (' ' :: q) :: ps.map (fun x => ' ' :: x) := by
      rw [splitOnChar_cons_sep, hsp]
    have happ := splitOnChar_append_no_sep p hno _ _ _ hcons
    show splitOnChar ';' (p ++ chars "; " ++ joinSep (chars "; ") (q :: ps)) = _
    rw [List.append_assoc]
    have hb : chars "; " ++ joinSep (chars "; ") (q :: ps) =
        ';' :: ' ' :: joinSep (chars "; ") (q :: ps) := rfl
    rw [hb, happ, List.append_nil]
    rfl

theorem filterMap_all_some {α β : Type} (f : α → Option β) (g : α → β) :
    ∀ l : List α, (∀ x ∈ l, f x = some (g x)) → l.filterMap f = l.map g
  | [], _ => rfl
  | x :: xs, h => by
    rw [List.map_cons, List.filterMap_cons, h x (List.mem_cons_self x xs),
      filterMap_all_some f g xs fun y hy => h y (List.mem_cons_of_mem x hy)]

theorem cookiePart_ne_nil (c : PWCookie) : cookiePart c ≠ [] := by
  rw [cookiePart]
  intro h
  rcases List.append_eq_nil.mp h with ⟨-, h2⟩
  exact List.cons_ne_nil _ _ h2

theorem parsed_tail_map (dom : List Char) : ∀ Lt : List PWCookie,
    (∀ c ∈ Lt, isImportantName c.name = true ∧ '=' ∉ c.name ∧ pyStrip c.name = c.name) →
    (List.filterMap (itemToCookie dom)
        ((Lt.map cookiePart).map (fun q => ' ' :: q))).map
      (fun c => (c.name, c.value)) = Lt.map (fun c => (c.name, c.value))
  | [], _ => rfl
  | c :: Lt, h => by
    have hc := h c (List.mem_cons_self c Lt)
    obtain ⟨pc, hpc, hname, hvalue⟩ :=
      itemToCookie_cookiePart dom c hc.1 hc.2.2 hc.2.1
    have IH := parsed_tail_map dom Lt fun x hx => h x (List.mem_cons_of_mem c hx)
    rw [List.map_cons, List.map_cons, List.filterMap_cons, itemToCookie_space, hpc]
    rw [List.map_cons, IH, hname, hvalue, List.map_cons]

/-- C10 counterexample: a cookie whose important-prefixed name carries a
trailing space — a name containing neither `=` nor `;` — does not survive
the serialize/parse round trip: the parser strips the name. -/
theorem roundtrip_trailing_space_cex :
    (';' ∉ ckTrail.name) ∧ ('=' ∉ ckTrail.name) ∧
    (parse_cookie_string (save_cookies_for_update [ckTrail])
        (chars "panel.bytte.cloud")).map (fun c => (c.name, c.value)) ≠
      (sortCookies (filterImportant [ckTrail])).map (fun c => (c.name, c.value)) := by
  refine ⟨by decide, by decide, by decide⟩

/-- C10 (amended): for every cookie list whose names contain neither `=` nor
`;` and carry no leading or trailing whitespace, parsing the rotation
serializer's output yields, in the same order, exactly the
important-prefix-filtered, priority-sorted cookies of the input, with every
name equal and every value recovered unchanged (serialization percent-encodes
each value with no safe characters and parsing URL-decodes it). -/
theorem parse_save_roundtrip :
    ∀ cookies : List PWCookie,
      (∀ c ∈ cookies, ';' ∉ c.name ∧ '=' ∉ c.name ∧ pyStrip c.name = c.name) →
      (parse_cookie_string (save_cookies_for_update cookies)
        (chars "panel.bytte.cloud")).map (fun c => (c.name, c.value)) =
      (sortCookies (filterImportant cookies)).map (fun c => (c.name, c.value)) := by
  intro cookies hgood
  by_cases hfi : filterImportant cookies = []
  · rw [save_cookies_for_update, if_pos hfi, hfi]
    rfl
  · have hLmem : ∀ c ∈ sortCookies (filterImportant cookies),
        isImportantName c.name = true ∧ ';' ∉ c.name ∧ '=' ∉ c.name ∧
          pyStrip c.name = c.name := by
      intro c hc
      rw [mem_sortCookies] at hc
      rw [filterImportant, List.mem_filter] at hc
      exact ⟨hc.2, (hgood c hc.1).1, (hgood c hc.1).2.1, (hgood c hc.1).2.2⟩
    have hLne : sortCookies (filterImportant cookies) ≠ [] := by
      intro h
      have hlen := sortCookies_length (filterImportant cookies)
      rw [h] at hlen
      exact hfi (List.length_eq_zero.mp hlen.symm)
    obtain ⟨c0, Lt, hL⟩ : ∃ c0 Lt, sortCookies (filterImportant cookies) = c0 :: Lt := by
      cases hl0 : sortCookies (filterImportant cookies) with
      | nil => exact absurd hl0 hLne
      | cons c0 Lt => exact ⟨c0, Lt, rfl⟩
    have hc0 := hLmem c0 (by rw [hL]; exact List.mem_cons_self c0 Lt)
    have hSne : joinSep (chars "; ") (cookiePart c0 :: Lt.map cookiePart) ≠ [] := by
      cases hmap : Lt.map cookiePart with
      | nil => exact cookiePart_ne_nil c0
      | cons q qs =>
        show cookiePart c0 ++ chars "; " ++ joinSep (chars "; ") (q :: qs) ≠ []
        simp [List.append_eq_nil, chars]
    have hnosemi : ∀ q ∈ cookiePart c0 :: Lt.map cookiePart, ∀ ch ∈ q, ch ≠ ';' := by
      intro q hq
      simp only [List.mem_cons, List.mem_map] at hq
      rcases hq with rfl | ⟨c, hcmem, rfl⟩
      · exact cookiePart_no_semi hc0.2.1
      · have := hLmem c (by rw [hL]; exact List.mem_cons_of_mem c0 hcmem)
        exact cookiePart_no_semi this.2.1
    obtain ⟨pc0, hpc0, hname0, hvalue0⟩ :=
      itemToCookie_cookiePart (chars "panel.bytte.cloud") c0 hc0.1 hc0.2.2.2 hc0.2.2.1
    rw [save_cookies_for_update, if_neg hfi, hL, List.map_cons]
    rw [parse_cookie_string, if_neg hSne]
    rw [split_join_parts (Lt.map cookiePart) (cookiePart c0) hnosemi]
    rw [List.filterMap_cons, hpc0]
    rw [List.map_cons, List.map_cons, hname0, hvalue0]
    rw [parsed_tail_map (chars "panel.bytte.cloud") Lt fun c hcm => by
      have := hLmem c (by rw [hL]; exact List.mem_cons_of_mem c0 hcm)
      exact ⟨this.1, this.2.2.1, this.2.2.2⟩]

/-- C10 witness: a clean token set with an encoding-heavy value and a
multibyte value round-trips exactly. -/
theorem parse_save_roundtrip_witness :
    (parse_cookie_string (save_cookies_for_update cookiesC10)
      (chars "panel.bytte.cloud")).map (fun c => (c.name, c.value)) =
    (sortCookies (filterImportant cookiesC10)).map (fun c => (c.name, c.value)) :=
  parse_save_roundtrip cookiesC10 (by decide)
